import Mathlib

/-!
Verification development for the consejoNL financial-report normalization
engine (`app/etl_central`).  The Python source is shallowly embedded:

* pandas cell values are `PyCell` (strings, integers, or the float NaN that
  pandas puts in empty cells); `pyStr` is Python's `str()` on those values;
* a raw worksheet (`pd.read_excel(..., header=None)`) is a `List (List PyCell)`,
  row-major, positionally indexed exactly like `df.iloc`;
* the two regular expressions used for period headers are embedded as
  explicit backtracking matchers over `List Char` (`searchFecha` for
  `r'(\d{1,2}) de (\w+)(?: de)? (\d{4})'` of `transform_utils.parse_fecha_header`,
  `searchFechaAl` for `r'al (\d{1,2}) de (\w+) de (\d{4})'` used by the
  egresos and ingresos transforms);
* Python's `float()` on a string is `pythonFloatOfString`; finite values are
  modelled exactly as rationals (every amount appearing in the claims is an
  integer, hence exactly representable in IEEE double as well), and the
  `inf`/`nan` words accepted by `float()` keep their own constructors;
* code paths that raise in Python are modelled as `none` / `Except.error`.
-/

/-! ## Python / pandas value model -/

inductive PyCell where
  | cstr (s : String)
  | cint (z : Int)
  | cnan
deriving DecidableEq

/-- Python `str()` on a cell value (pandas renders its float NaN as "nan"). -/
def pyStr : PyCell → String
  | .cstr s => s
  | .cint z => toString z
  | .cnan => "nan"

/-- Python `str.isspace` characters (ASCII portion): the set stripped by
`str.strip()` and by `float()`. -/
def isPySpace (c : Char) : Bool :=
  c = ' ' || c = '\t' || c = '\n' || c = '\r' || c.toNat = 11 || c.toNat = 12

def stripChars (l : List Char) : List Char :=
  ((l.dropWhile isPySpace).reverse.dropWhile isPySpace).reverse

/-- Python `str.strip()`. -/
def pyStrip (s : String) : String := String.mk (stripChars s.data)

/-- Decimal value of a digit string, as computed by Python `int()` on the
regex groups (`'048'.toNat = 48`, leading zeros dropped on reprint). -/
def natOfDigits (l : List Char) : Nat :=
  l.foldl (fun a c => 10 * a + (c.toNat - 48)) 0

/-- Python `f"{n:02d}"` for a nonnegative value. -/
def pad2 (n : Nat) : String := if n < 10 then "0" ++ toString n else toString n

/-! ## Python `float()` on strings -/

inductive PyFloat where
  | fin (q : ℚ)
  | inf (neg : Bool)
  | nan
deriving DecidableEq

/-- Consume `digit (('_')? digit)*` continuations after an initial digit;
returns the digits (underscores removed) and the unconsumed rest.  This is
CPython's digit-part grammar, where underscores may only sit between digits. -/
def digitTail : List Char → List Char × List Char
  | [] => ([], [])
  | [c] => if c.isDigit then ([c], []) else ([], [c])
  | c :: d :: rest =>
    if c.isDigit then
      let r := digitTail (d :: rest)
      (c :: r.1, r.2)
    else if c = '_' then
      if d.isDigit then
        let r := digitTail rest
        (d :: r.1, r.2)
      else ([], c :: d :: rest)
    else ([], c :: d :: rest)

/-- A CPython digit part: at least one digit, underscores between digits. -/
def takeDigitPart (l : List Char) : Option (List Char × List Char) :=
  match l with
  | c :: rest =>
    if c.isDigit then
      let r := digitTail rest
      some (c :: r.1, r.2)
    else none
  | [] => none

/-- Case-insensitive literal match (for `float()`'s `inf`/`nan` words);
returns the unconsumed rest. -/
def lowerEq : List Char → List Char → Option (List Char)
  | [], rest => some rest
  | wc :: ws, c :: cs => if c.toLower = wc then lowerEq ws cs else none
  | _ :: _, [] => none

/-- Exponent clause `(e|E)(+|-)? digitpart` of the `float()` grammar. -/
def parseExponent : List Char → Option (Int × List Char)
  | c :: rest =>
    if c = 'e' || c = 'E' then
      match rest with
      | s :: rest2 =>
        if s = '+' then (takeDigitPart rest2).map (fun r => ((natOfDigits r.1 : Int), r.2))
        else if s = '-' then (takeDigitPart rest2).map (fun r => (-(natOfDigits r.1 : Int), r.2))
        else (takeDigitPart rest).map (fun r => ((natOfDigits r.1 : Int), r.2))
      | [] => none
    else none
  | [] => none

def mantissaVal (ip fp : List Char) : ℚ :=
  (natOfDigits ip : ℚ) + (natOfDigits fp : ℚ) / ((10 ^ fp.length : ℕ) : ℚ)

/-- Mantissa clause `digitpart? '.' digitpart | digitpart '.'?`. -/
def parseNumber (l : List Char) : Option (ℚ × List Char) :=
  match takeDigitPart l with
  | some (ip, r1) =>
    match r1 with
    | '.' :: r2 =>
      match takeDigitPart r2 with
      | some (fp, r3) => some (mantissaVal ip fp, r3)
      | none => some ((natOfDigits ip : ℚ), r2)
    | _ => some ((natOfDigits ip : ℚ), r1)
  | none =>
    match l with
    | c :: r2 =>
      if c = '.' then
        match takeDigitPart r2 with
        | some (fp, r3) => some (mantissaVal [] fp, r3)
        | none => none
      else none
    | [] => none

def applyExp (q : ℚ) (e : Int) : ℚ :=
  if 0 ≤ e then q * ((10 ^ e.toNat : ℕ) : ℚ) else q / ((10 ^ (-e).toNat : ℕ) : ℚ)

def parseAfterSign (l : List Char) (neg : Bool) : Option PyFloat :=
  match lowerEq "infinity".data l with
  | some [] => some (.inf neg)
  | _ =>
    match lowerEq "inf".data l with
    | some [] => some (.inf neg)
    | _ =>
      match lowerEq "nan".data l with
      | some [] => some .nan
      | _ =>
        match parseNumber l with
        | some (q, rest) =>
          match parseExponent rest with
          | some (e, rest2) =>
            if rest2 = [] then
              some (.fin (if neg then -(applyExp q e) else applyExp q e))
            else none
          | none => if rest = [] then some (.fin (if neg then -q else q)) else none
        | none => none

/-- Python `float(s)` for a string argument: strip whitespace, optional sign,
then `inf`/`nan` words or a decimal literal; `none` models `ValueError`.
Finite values are taken exactly (as rationals). -/
def pythonFloatOfString (s : String) : Option PyFloat :=
  match stripChars s.data with
  | [] => parseAfterSign [] false
  | c :: rest =>
    if c = '+' then parseAfterSign rest false
    else if c = '-' then parseAfterSign rest true
    else parseAfterSign (c :: rest) false

/-- `transform_utils.clean_amount`: stringify, delete every `,`, `$` and space
(`str.replace` removes all occurrences), then `float()`; the bare `except`
turns any parse failure into `None`, so the function is total. -/
def clean_amount (val : PyCell) : Option PyFloat :=
  pythonFloatOfString
    (String.mk ((pyStr val).data.filter (fun c => !(c = ',' || c = '$' || c = ' '))))

/-! ## Period Resolver: the two date regexes -/

def month_map : List (String × Nat) :=
  [("enero", 1), ("febrero", 2), ("marzo", 3), ("abril", 4),
   ("mayo", 5), ("junio", 6), ("julio", 7), ("agosto", 8),
   ("septiembre", 9), ("octubre", 10), ("noviembre", 11), ("diciembre", 12)]

/-- Python `\w` (ASCII portion, the only part the lexicon can hit). -/
def isWordChar (c : Char) : Bool := c.isAlphanum || c = '_'

/-- Match a literal character sequence, returning the unconsumed rest. -/
def matchLit : List Char → List Char → Option (List Char)
  | [], l => some l
  | c :: cs, x :: xs => if x = c then matchLit cs xs else none
  | _ :: _, [] => none

/-- `\d{1,2}` greedy.  Committing to two digits when two are available is
faithful: if the regex backtracks to one digit, the next character is the
second digit, which can never match the mandatory following space. -/
def takeDigits2 : List Char → Option (List Char × List Char)
  | c :: rest =>
    if c.isDigit then
      match rest with
      | c2 :: rest2 => if c2.isDigit then some ([c, c2], rest2) else some ([c], rest)
      | [] => some ([c], [])
    else none
  | [] => none

/-- `' ' (\d{4})` at the end of the `parse_fecha_header` pattern: a space and
four digits, anything may follow. -/
def matchSpaceYear : List Char → Option (List Char)
  | ' ' :: a :: b :: c :: d :: _ =>
    if a.isDigit && b.isDigit && c.isDigit && d.isDigit then some [a, b, c, d] else none
  | _ => none

/-- One anchored attempt of `r'(\d{1,2}) de (\w+)(?: de)? (\d{4})'`.
`\w+` is taken by maximal munch, faithful because the pattern after it
requires a space, which is never a word character; the optional `' de'` is
tried first and the non-`de` alternative on failure, exactly as the regex
engine backtracks. -/
def matchFechaAt (l : List Char) : Option (List Char × List Char × List Char) :=
  match takeDigits2 l with
  | none => none
  | some (d, r1) =>
    match matchLit [' ', 'd', 'e', ' '] r1 with
    | none => none
    | some r2 =>
      let w := r2.takeWhile isWordChar
      let r3 := r2.dropWhile isWordChar
      if w = [] then none
      else
        match matchLit [' ', 'd', 'e'] r3 with
        | some r4 =>
          match matchSpaceYear r4 with
          | some y => some (d, w, y)
          | none =>
            match matchSpaceYear r3 with
            | some y => some (d, w, y)
            | none => none
        | none =>
          match matchSpaceYear r3 with
          | some y => some (d, w, y)
          | none => none

/-- `re.search`: leftmost matching start position. -/
def searchFecha : List Char → Option (List Char × List Char × List Char)
  | [] => none
  | c :: rest =>
    match matchFechaAt (c :: rest) with
    | some r => some r
    | none => searchFecha rest

/-- `transform_utils.parse_fecha_header` on a string argument: search the
lower-cased text for the date pattern; on a match, build
`f"{year}-{month:02d}-{day:02d}"` and `f"{year}_Q{(month - 1) // 3 + 1}"`,
where a month word outside the lexicon yields `month_map.get(..., 0) = 0`
(Python floor division makes the quarter 0 then); on no match return
`(None, "unknown")`. -/
def parse_fecha_header (text : String) : Option String × String :=
  match searchFecha (text.data.map Char.toLower) with
  | some (d, mn, y) =>
    let day := natOfDigits d
    let month := (month_map.lookup (String.mk mn)).getD 0
    let year := natOfDigits y
    (some (toString year ++ "-" ++ pad2 month ++ "-" ++ pad2 day),
     toString year ++ "_Q" ++ toString ((Int.ofNat month - 1).fdiv 3 + 1))
  | none => (none, "unknown")

/-- One anchored attempt of `r'al (\d{1,2}) de (\w+) de (\d{4})'` (the
egresos/ingresos header pattern, searched on the raw, non-lowered text). -/
def matchFechaAlAt (l : List Char) : Option (List Char × List Char × List Char) :=
  match matchLit ['a', 'l', ' '] l with
  | none => none
  | some r0 =>
    match takeDigits2 r0 with
    | none => none
    | some (d, r1) =>
      match matchLit [' ', 'd', 'e', ' '] r1 with
      | none => none
      | some r2 =>
        let w := r2.takeWhile isWordChar
        let r3 := r2.dropWhile isWordChar
        if w = [] then none
        else
          match matchLit [' ', 'd', 'e', ' '] r3 with
          | none => none
          | some r4 =>
            match r4 with
            | a :: b :: c :: e :: _ =>
              if a.isDigit && b.isDigit && c.isDigit && e.isDigit then
                some (d, w, [a, b, c, e])
              else none
            | _ => none

def searchFechaAl : List Char → Option (List Char × List Char × List Char)
  | [] => none
  | c :: rest =>
    match matchFechaAlAt (c :: rest) with
    | some r => some r
    | none => searchFechaAl rest

/-- The inline date parse of `transform_egresos_detallado_data`
(lines 95-110): search `'al (\d{1,2}) de (\w+) de (\d{4})'` on
`str(df.iloc[4, 1])`, lower-case only the month word for the lexicon lookup;
on a match `fecha = f"{yr}-{mon:02d}-{day:02d}"` and
`cuarto = f"Q{(mon - 1) // 3 + 1}"` (no year prefix); on no match
`('', None)`. -/
def egresos_parse_fecha (s : String) : String × Option String :=
  match searchFechaAl s.data with
  | some (d, mn, y) =>
    let mon := (month_map.lookup (String.mk (mn.map Char.toLower))).getD 0
    (toString (natOfDigits y) ++ "-" ++ pad2 mon ++ "-" ++ pad2 (natOfDigits d),
     some ("Q" ++ toString ((Int.ofNat mon - 1).fdiv 3 + 1)))
  | none => ("", none)

/-! ## Code/Label Splitter -/

/-- The fixed code set of the budget-balance grammar
`^(A[123]|B[12]|C[12]|E[12]|F[12]|G[12])\.`. -/
def balanceCodes : List String :=
  ["A1", "A2", "A3", "B1", "B2", "C1", "C2", "E1", "E2", "F1", "F2", "G1", "G2"]

/-- Group 1 of the budget-balance code grammar when it matches at the start
of the text (two code characters followed by a literal dot). -/
def codeKey : List Char → Option String
  | a :: b :: '.' :: _ =>
    if balanceCodes.contains (String.mk [a, b]) then some (String.mk [a, b]) else none
  | _ => none

/-- `pd.Series.str.match` against the budget-balance code pattern. -/
def matchesBalanceCode (s : String) : Bool := (codeKey s.data).isSome

/-- `transform_utils.extraer_codigo_y_sublabel`:
`re.match(r'^(A[123]|B[12]|C[12]|E[12]|F[12]|G[12])\.\s*(.*)', texto)`;
on a match, group 2 is the text after the dot with leading whitespace
dropped, up to the first newline (`.` does not cross lines); otherwise
`(None, texto)`. -/
def extraer_codigo_y_sublabel (texto : String) : Option String × String :=
  match codeKey texto.data with
  | some code =>
    (some code,
     String.mk (((texto.data.drop 3).dropWhile isPySpace).takeWhile (fun c => c ≠ '\n')))
  | none => (none, texto)

/-- `egresos_detallado.extract_codigo`:
`re.match(r'^\s*([A-Za-z])([0-9]+)\)', str(texto))`, returning
`group(1).upper() + group(2)`.  Digits are taken by maximal munch, faithful
because backtracking would place a digit where the regex requires `)`. -/
def extract_codigo (texto : String) : Option String :=
  match texto.data.dropWhile isPySpace with
  | c :: rest =>
    if c.isAlpha then
      let ds := rest.takeWhile Char.isDigit
      if ds = [] then none
      else
        match rest.dropWhile Char.isDigit with
        | ')' :: _ => some (String.mk (c.toUpper :: ds))
        | _ => none
    else none
  | [] => none

/-- The ingresos primary-key pattern `^([A-Z]\.)`; the captured group keeps
the dot. -/
def extractPrim (s : String) : Option String :=
  match s.data with
  | c :: '.' :: _ => if c.isUpper then some (String.mk [c, '.']) else none
  | _ => none

/-- The ingresos secondary-key pattern `^([a-z]\d+\))`; the captured group
keeps the closing parenthesis. -/
def extractSec (s : String) : Option String :=
  match s.data with
  | c :: rest =>
    if c.isLower then
      let ds := rest.takeWhile Char.isDigit
      if ds = [] then none
      else
        match rest.dropWhile Char.isDigit with
        | ')' :: _ => some (String.mk (c :: (ds ++ [')'])))
        | _ => none
    else none
  | [] => none

/-! ## DataFrame model and the Identity Assigner -/

/-- A pandas DataFrame: ordered column labels plus row-major data.  The
transforms below use positional grids (`List (List PyCell)`) directly; `Df`
is used where column assignment semantics matter
(`df["surrogate_key"] = ...`). -/
structure Df where
  cols : List String
  rows : List (List PyCell)
deriving DecidableEq

/-- Index of the first list element satisfying `p` (pandas `idxmax` on a
boolean column over the default range index, and `Index[0]`). -/
def firstIdx {α : Type _} (p : α → Bool) : List α → Option Nat
  | [] => none
  | x :: xs => if p x then some 0 else (firstIdx p xs).map (· + 1)

/-- Pandas column assignment `df[name] = vals`: overwrite the column in
place when the label exists, else append a new column on the right. -/
def assignColumn (df : Df) (name : String) (vals : List PyCell) : Df :=
  match firstIdx (fun c => c = name) df.cols with
  | some j => ⟨df.cols, List.zipWith (fun r v => r.set j v) df.rows vals⟩
  | none => ⟨df.cols ++ [name], List.zipWith (fun r v => r ++ [v]) df.rows vals⟩

/-- `generate_surrogate_key` (identical in all three asset modules):
`df["surrogate_key"] = [generate_truly_unique_key() for _ in range(len(df))]`.
`generate_truly_unique_key` concatenates `uuid4` bytes with 16 bytes of
`os.urandom` and base64-encodes them; the cryptographically random draws are
modelled as an ambient entropy stream `ent`, the i-th list-comprehension call
reading `ent i`.  No record field enters the computation. -/
def generate_surrogate_key (ent : Nat → String) (df : Df) : Df :=
  assignColumn df "surrogate_key"
    ((List.range df.rows.length).map (fun i => PyCell.cstr (ent i)))

/-- The records handed to the load step: each row keyed by its assigned
surrogate key (the key column is the last column for a freshly keyed frame). -/
def pipeline_records (ent : Nat → String) (df : Df) : List (String × List PyCell) :=
  (generate_surrogate_key ent df).rows.map (fun r =>
    (match r.getLast? with
     | some (PyCell.cstr s) => s
     | _ => "", r))

/-- One row of a PostgreSQL `INSERT ... ON CONFLICT (key) DO UPDATE`: an
existing row with the same key is overwritten, otherwise the row is
appended. -/
def upsertStep {α : Type _} (t : List (String × α)) (x : String × α) : List (String × α) :=
  if t.any (fun p => p.1 = x.1) then t.map (fun p => if p.1 = x.1 then x else p)
  else t ++ [x]

/-- The upsert load policy applied to a batch (`PostgreSqlClient.upsert`,
`single_load`). -/
def upsertRows {α : Type _} (t : List (String × α)) (batch : List (String × α)) :
    List (String × α) :=
  batch.foldl upsertStep t

/-- `DataFrame.drop_duplicates(subset=key, keep='first')`, with the set of
keys already seen carried as an accumulator: keep each row whose key has not
appeared earlier. -/
def dedupKeepFirstAux {α β : Type _} [DecidableEq β] (key : α → β) :
    List α → List β → List α
  | [], _ => []
  | x :: xs, seen =>
    if key x ∈ seen then dedupKeepFirstAux key xs seen
    else x :: dedupKeepFirstAux key xs (key x :: seen)

def dedupKeepFirst {α β : Type _} [DecidableEq β] (key : α → β) (l : List α) : List α :=
  dedupKeepFirstAux key l []

/-! ## Budget-balance transform (`balance_presupuestario.py`) -/

def getCell (df : List (List PyCell)) (i j : Nat) : PyCell :=
  (df.getD i []).getD j PyCell.cnan

/-- The row mask `df[1].astype(str).str.match(pattern, na=False)`. -/
def balance_filter (df : List (List PyCell)) : List (List PyCell) :=
  df.filter (fun r => matchesBalanceCode (pyStr (r.getD 1 PyCell.cnan)))

/-- `df_codes.drop_duplicates(subset='code', keep='first')`, the key being
group 1 of the code pattern extracted from column 1. -/
def balance_dedup (rows : List (List PyCell)) : List (List PyCell)  :=
  dedupKeepFirst (fun r => codeKey (pyStr (r.getD 1 PyCell.cnan)).data) rows

/-- One deduplicated line item: split concept/sublabel plus the three metric
cells (original columns 2, 3, 4). -/
structure BPLine where
  concept : Option String
  sublabel : String
  m1 : PyCell
  m2 : PyCell
  m3 : PyCell
deriving DecidableEq

def balance_line (r : List PyCell) : BPLine :=
  ⟨(extraer_codigo_y_sublabel (pyStr (r.getD 1 PyCell.cnan))).1,
   (extraer_codigo_y_sublabel (pyStr (r.getD 1 PyCell.cnan))).2,
   r.getD 2 PyCell.cnan, r.getD 3 PyCell.cnan, r.getD 4 PyCell.cnan⟩

/-- One long-format output row of the budget-balance transform (`mtype` is
the melt `var_name='type'` column). -/
structure BPRow where
  concept : Option String
  sublabel : String
  year_quarter : String
  full_date : Option String
  mtype : String
  amount : Option PyFloat
deriving DecidableEq

/-- `df_final.melt(id_vars=['concept','sublabel'], value_vars=[...])` followed
by attaching the period columns and `clean_amount`: pandas emits the melted
rows grouped by value variable, in `value_vars` order. -/
def balance_melt (items : List BPLine) (yq : String) (fd : Option String) : List BPRow :=
  items.map (fun it => ⟨it.concept, it.sublabel, yq, fd, "estimated_or_approved", clean_amount it.m1⟩)
    ++ items.map (fun it => ⟨it.concept, it.sublabel, yq, fd, "devengado", clean_amount it.m2⟩)
    ++ items.map (fun it => ⟨it.concept, it.sublabel, yq, fd, "recaudado_pagado", clean_amount it.m3⟩)

/-- `transform_balance_presupuestario_data`.  The guard models the shapes on
which the pandas code runs without raising: the header cell `iloc[3, 1]`
must exist and hold a string (`text.lower()` raises otherwise), and the
sheet must be exactly five columns wide (renaming `iloc[:, 1:]` to four
labels raises otherwise); `none` models the raised exception. -/
def transform_balance_presupuestario_data (df : List (List PyCell)) : Option (List BPRow) :=
  if 4 ≤ df.length ∧ ∀ r ∈ df, r.length = 5 then
    match getCell df 3 1 with
    | PyCell.cstr h =>
      some (balance_melt ((balance_dedup (balance_filter df)).map balance_line)
        (parse_fecha_header h).2 (parse_fecha_header h).1)
    | _ => none
  else none

/-! ## Detailed-expenditure transform (`egresos_detallado.py`) -/

/-- `str.contains(r'^\s*II\.\s*Gasto Etiquetado', na=False)`: anchored at the
start, so it tests a prefix shape. -/
def isAnchorII (s : String) : Bool :=
  match s.data.dropWhile isPySpace with
  | 'I' :: 'I' :: '.' :: r2 =>
    (matchLit "Gasto Etiquetado".data (r2.dropWhile isPySpace)).isSome
  | _ => false

/-- `df.iloc[a:b]` on the row axis. -/
def sliceRows (df : List (List PyCell)) (a b : Nat) : List (List PyCell) :=
  (df.take b).drop a

/-- `iloc[:, 1:8]`: columns 1-7 of a row. -/
def takeCols17 (r : List PyCell) : List PyCell := (r.drop 1).take 7

/-- One processed expenditure line: the seven retained columns
(Concepto, Aprobado, Ampliaciones/Reducciones, Modificado, Devengado,
Pagado, Subejercicio) plus the derived fields. -/
structure EgLine where
  cells : List PyCell
  codigo : Option String
  fecha : String
  cuarto : Option String
deriving DecidableEq

/-- `procesar_tabla`: derive `Codigo` from `Concepto`, keep rows where it is
not null, `drop_duplicates(subset='Codigo')` (first wins), then attach
`Fecha` and `Cuarto`. -/
def procesar_tabla (tbl : List (List PyCell)) (fecha : String) (cuarto : Option String) :
    List EgLine :=
  (dedupKeepFirst (fun r => extract_codigo (pyStr (r.getD 0 PyCell.cnan)))
      (tbl.filter (fun r => (extract_codigo (pyStr (r.getD 0 PyCell.cnan))).isSome))).map
    (fun r => ⟨r, extract_codigo (pyStr (r.getD 0 PyCell.cnan)), fecha, cuarto⟩)

structure EgRow where
  cells : List PyCell
  codigo : Option String
  fecha : String
  cuarto : Option String
  seccion : String
deriving DecidableEq

/-- `transform_egresos_detallado_data`: parse the date cell `str(iloc[4,1])`;
find the first row whose column 1 matches the `II. Gasto Etiquetado` anchor
(`idxmax` on the boolean mask over the range index), raising (`none`) when
there is none; section I is rows `8:anchor`, section II runs from the row
after the anchor to the first row whose column-1 text strips to the empty
string, or the sheet end; each section is processed and tagged.  The guard
models the shapes on which the pandas code runs without raising (date cell
present, seven data columns available). -/
def transform_egresos_detallado_data (df : List (List PyCell)) : Option (List EgRow) :=
  if 5 ≤ df.length ∧ ∀ r ∈ df, 8 ≤ r.length then
    match firstIdx (fun r => isAnchorII (pyStr (r.getD 1 PyCell.cnan))) df with
    | none => none
    | some i =>
      some
        ((procesar_tabla ((sliceRows df 8 i).map takeCols17)
            (egresos_parse_fecha (pyStr (getCell df 4 1))).1
            (egresos_parse_fecha (pyStr (getCell df 4 1))).2).map
          (fun p => ⟨p.cells, p.codigo, p.fecha, p.cuarto, "I"⟩)
        ++ (procesar_tabla
              ((sliceRows df (i + 1)
                (match firstIdx (fun r => pyStrip (pyStr (r.getD 1 PyCell.cnan)) = "")
                    (df.drop (i + 1)) with
                 | some k => i + 1 + k
                 | none => df.length)).map takeCols17)
              (egresos_parse_fecha (pyStr (getCell df 4 1))).1
              (egresos_parse_fecha (pyStr (getCell df 4 1))).2).map
          (fun p => ⟨p.cells, p.codigo, p.fecha, p.cuarto, "II"⟩))
  else none

/-! ## Detailed-income transform (`ingresos_detallado.py`) -/

/-- `extract_fecha_y_cuarto`: join the stripped stringifications of
`iloc[3, 1:8]` with spaces, search the `al ... de ... de ...` pattern, and
build `f"{year}-{month:02d}-{day:02d}"` and `f"{year}_Q{(month-1)//3+1}"`;
`("", "")` on no match.  Callers guarantee row 3 exists (the transform's
shape guard). -/
def extract_fecha_y_cuarto (df : List (List PyCell)) : String × String :=
  match searchFechaAl
      (String.intercalate " "
        ((((df.getD 3 []).drop 1).take 7).map (fun c => pyStrip (pyStr c)))).data with
  | some (d, mn, y) =>
    let month := (month_map.lookup (String.mk (mn.map Char.toLower))).getD 0
    (toString (natOfDigits y) ++ "-" ++ pad2 month ++ "-" ++ pad2 (natOfDigits d),
     toString (natOfDigits y) ++ "_Q" ++ toString ((Int.ofNat month - 1).fdiv 3 + 1))
  | none => ("", "")

structure IngRow where
  cells : List PyCell
  clave_primaria : Option String
  clave_secundaria : Option String
  fecha : String
  cuarto : String
  seccion : String
deriving DecidableEq

/-- `procesar_tabla_ingresos`: extract the (independent) primary and
secondary keys from `concepto` and attach the period and section columns.
No row is dropped: rows whose concepto matches neither pattern are retained
with null keys. -/
def procesar_tabla_ingresos (tbl : List (List PyCell)) (fecha cuarto seccion : String) :
    List IngRow :=
  tbl.map (fun r =>
    ⟨r, extractPrim (pyStr (r.getD 0 PyCell.cnan)),
     extractSec (pyStr (r.getD 0 PyCell.cnan)), fecha, cuarto, seccion⟩)

/-- `transform_ingresos_detallado_data`: fixed, hard-coded row ranges —
section I is `iloc[7:44, 1:8]`, section II is `iloc[45:76, 1:8]` (pandas
slicing clamps to the sheet end). -/
def transform_ingresos_detallado_data (df : List (List PyCell)) : Option (List IngRow) :=
  if 4 ≤ df.length ∧ ∀ r ∈ df, 8 ≤ r.length then
    some
      (procesar_tabla_ingresos ((sliceRows df 7 44).map takeCols17)
          (extract_fecha_y_cuarto df).1 (extract_fecha_y_cuarto df).2 "I"
        ++ procesar_tabla_ingresos ((sliceRows df 45 76).map takeCols17)
          (extract_fecha_y_cuarto df).1 (extract_fecha_y_cuarto df).2 "II")
  else none

/-! ## Load engine transaction model (`connectors/postgresql.py`) -/

/-- The destination table: `none` when the table does not exist, otherwise
its rows keyed by `surrogate_key`. -/
abbrev DBState := Option (List (String × List PyCell))

/-- `DROP TABLE IF EXISTS` (`PostgreSqlClient.drop_table`, its own
`engine.begin()` transaction). -/
def db_drop : DBState → DBState := fun _ => none

/-- `metadata.create_all`: create the table only when absent (idempotent,
committed DDL). -/
def db_create : DBState → DBState := fun db => some (db.getD [])

/-- `PostgreSqlClient.overwrite(data)`: `drop_table` commits in its own
transaction, then `insert` runs `create_all` followed by a second
transaction inserting the batch.  `insertOk = false` injects a failure
inside the insert transaction (constraint violation, lost connection),
which rolls back that transaction only and re-raises: the returned
`Except.error` carries the table state left behind. -/
def overwrite_run (rows : List (String × List PyCell)) (insertOk : Bool) (db : DBState) :
    Except DBState DBState :=
  if insertOk then Except.ok (some (((db_create (db_drop db)).getD []) ++ rows))
  else Except.error (db_create (db_drop db))

/-- `bulk_load`: `create_all`, then one connection executing
`TRUNCATE TABLE ...` and the insert with a single final `commit()` — a
failure before the commit rolls both statements back. -/
def bulk_load_run (rows : List (String × List PyCell)) (insertOk : Bool) (db : DBState) :
    Except DBState DBState :=
  if insertOk then Except.ok (some rows) else Except.error (db_create db)

/-- `PostgreSqlClient.insert`: `create_all`, then the insert inside one
`engine.begin()` transaction. -/
def insert_run (rows : List (String × List PyCell)) (insertOk : Bool) (db : DBState) :
    Except DBState DBState :=
  if insertOk then Except.ok (some (((db_create db).getD []) ++ rows))
  else Except.error (db_create db)

/-- `PostgreSqlClient.upsert` / `single_load`: `create_all`, then one
transaction executing the full `INSERT ... ON CONFLICT DO UPDATE`
statement. -/
def upsert_run (rows : List (String × List PyCell)) (insertOk : Bool) (db : DBState) :
    Except DBState DBState :=
  if insertOk then Except.ok (some (upsertRows ((db_create db).getD []) rows))
  else Except.error (db_create db)

/-! ## Helper lemmas -/

theorem toLower_of_isDigit (c : Char) (h : c.isDigit) : c.toLower = c := by
  simp only [Char.isDigit, Bool.and_eq_true, decide_eq_true_eq, ge_iff_le] at h
  simp only [Char.toLower, Char.toNat]
  have h1 : c.val.toNat ≤ 57 := UInt32.toNat_le_of_le (by decide) h.2
  have h2 : ¬ (65 ≤ c.val.toNat ∧ c.val.toNat ≤ 90) := by omega
  simp [h2]

theorem map_toLower_digits (l : List Char) (h : ∀ c ∈ l, c.isDigit) :
    l.map Char.toLower = l := by
  induction l with
  | nil => rfl
  | cons c cs ih =>
    simp only [List.map_cons, List.cons.injEq]
    exact ⟨toLower_of_isDigit c (h c (by simp)),
      ih (fun x hx => h x (by simp [hx]))⟩

theorem matchLit_append (pre rest : List Char) : matchLit pre (pre ++ rest) = some rest := by
  induction pre with
  | nil => rfl
  | cons c cs ih => simp [matchLit, ih]

theorem takeWhile_append_of_break (p : Char → Bool) (a : List Char) (c : Char) (b : List Char)
    (ha : ∀ x ∈ a, p x = true) (hc : p c = false) :
    (a ++ c :: b).takeWhile p = a := by
  induction a with
  | nil => simp [List.takeWhile, hc]
  | cons x xs ih =>
    have hx : p x = true := ha x (by simp)
    simp only [List.cons_append, List.takeWhile_cons, hx, if_true]
    simp only [List.cons.injEq, true_and]
    exact ih (fun y hy => ha y (by simp [hy]))

theorem dropWhile_append_of_break (p : Char → Bool) (a : List Char) (c : Char) (b : List Char)
    (ha : ∀ x ∈ a, p x = true) (hc : p c = false) :
    (a ++ c :: b).dropWhile p = c :: b := by
  induction a with
  | nil => simp [List.dropWhile, hc]
  | cons x xs ih =>
    have hx : p x = true := ha x (by simp)
    simp only [List.cons_append, List.dropWhile_cons, hx, if_true]
    exact ih (fun y hy => ha y (by simp [hy]))

theorem quarter_fdiv_ofNat (m : Nat) (h : 1 ≤ m) :
    toString ((Int.ofNat m - 1).fdiv 3 + 1) = toString ((m - 1) / 3 + 1) := by
  have h2 : (Int.ofNat m - 1) = Int.ofNat (m - 1) := by
    simp only [Int.ofNat_eq_natCast]; omega
  have h3 : (Int.ofNat (m - 1)).fdiv 3 = Int.ofNat ((m - 1) / 3) := by
    cases h4 : m - 1 with
    | zero => rfl
    | succ k => rfl
  have h5 : (Int.ofNat ((m - 1) / 3)) + 1 = Int.ofNat ((m - 1) / 3 + 1) := by
    simp only [Int.ofNat_eq_natCast]; omega
  rw [h2, h3, h5]
  rfl

/-- The month lexicon is well formed: every entry is a nonempty, already
lower-case word of word characters with a number in 1..12, and lookup finds
it. -/
theorem month_map_facts : ∀ p ∈ month_map,
    p.1.data.map Char.toLower = p.1.data ∧ p.1.data ≠ [] ∧
    (∀ c ∈ p.1.data, isWordChar c = true) ∧
    month_map.lookup p.1 = some p.2 ∧ 1 ≤ p.2 ∧ p.2 ≤ 12 := by decide
theorem matchFechaAt_of_nonDigit (c : Char) (l : List Char) (h : c.isDigit = false) :
    matchFechaAt (c :: l) = none := by
  simp [matchFechaAt, takeDigits2, h]

theorem searchFecha_cons_of_none (c : Char) (l : List Char)
    (h : matchFechaAt (c :: l) = none) : searchFecha (c :: l) = searchFecha l := by
  simp [searchFecha, h]

theorem matchFechaAt_valid (dc mn : List Char) (y1 y2 y3 y4 : Char) (t : List Char)
    (hd : dc.length = 1 ∨ dc.length = 2) (hdd : ∀ c ∈ dc, c.isDigit)
    (hmn : mn ≠ []) (hmnw : ∀ c ∈ mn, isWordChar c = true)
    (hy1 : y1.isDigit) (hy2 : y2.isDigit) (hy3 : y3.isDigit) (hy4 : y4.isDigit) :
    matchFechaAt
      (dc ++ ' ' :: 'd' :: 'e' :: ' ' :: (mn ++ ' ' :: 'd' :: 'e' :: ' ' :: y1 :: y2 :: y3 :: y4 :: t))
      = some (dc, mn, [y1, y2, y3, y4]) := by
  have hw : List.takeWhile isWordChar
      (mn ++ ' ' :: 'd' :: 'e' :: ' ' :: y1 :: y2 :: y3 :: y4 :: t) = mn :=
    takeWhile_append_of_break isWordChar mn ' ' _ hmnw (by decide)
  have hw2 : List.dropWhile isWordChar
      (mn ++ ' ' :: 'd' :: 'e' :: ' ' :: y1 :: y2 :: y3 :: y4 :: t)
      = ' ' :: 'd' :: 'e' :: ' ' :: y1 :: y2 :: y3 :: y4 :: t :=
    dropWhile_append_of_break isWordChar mn ' ' _ hmnw (by decide)
  have hL : matchLit [' ', 'd', 'e', ' ']
      (' ' :: 'd' :: 'e' :: ' ' :: (mn ++ ' ' :: 'd' :: 'e' :: ' ' :: y1 :: y2 :: y3 :: y4 :: t))
      = some (mn ++ ' ' :: 'd' :: 'e' :: ' ' :: y1 :: y2 :: y3 :: y4 :: t) := by
    simp [matchLit]
  have hL2 : matchLit [' ', 'd', 'e'] (' ' :: 'd' :: 'e' :: ' ' :: y1 :: y2 :: y3 :: y4 :: t)
      = some (' ' :: y1 :: y2 :: y3 :: y4 :: t) := by
    simp [matchLit]
  have hMS : matchSpaceYear (' ' :: y1 :: y2 :: y3 :: y4 :: t) = some [y1, y2, y3, y4] := by
    simp [matchSpaceYear, hy1, hy2, hy3, hy4]
  rcases hd with h1 | h2
  · obtain ⟨c1, rfl⟩ : ∃ a, dc = [a] := by
      cases dc with
      | nil => simp at h1
      | cons a l1 =>
        cases l1 with
        | nil => exact ⟨a, rfl⟩
        | cons b l2 => simp at h1
    have hc1 : c1.isDigit := hdd c1 (by simp)
    have hT : takeDigits2 (c1 :: ' ' :: 'd' :: 'e' :: ' '
        :: (mn ++ ' ' :: 'd' :: 'e' :: ' ' :: y1 :: y2 :: y3 :: y4 :: t))
        = some ([c1], ' ' :: 'd' :: 'e' :: ' '
            :: (mn ++ ' ' :: 'd' :: 'e' :: ' ' :: y1 :: y2 :: y3 :: y4 :: t)) := by
      simp [takeDigits2, hc1]
    simp only [List.cons_append, List.nil_append, matchFechaAt, hT, hL, hw, hw2,
      if_neg hmn, hL2, hMS]
  · obtain ⟨c1, c2, rfl⟩ : ∃ a b, dc = [a, b] := by
      cases dc with
      | nil => simp at h2
      | cons a l1 =>
        cases l1 with
        | nil => simp at h2
        | cons b l2 =>
          cases l2 with
          | nil => exact ⟨a, b, rfl⟩
          | cons c l3 => simp at h2
    have hc1 : c1.isDigit := hdd c1 (by simp)
    have hc2 : c2.isDigit := hdd c2 (by simp)
    have hT : takeDigits2 (c1 :: c2 :: ' ' :: 'd' :: 'e' :: ' '
        :: (mn ++ ' ' :: 'd' :: 'e' :: ' ' :: y1 :: y2 :: y3 :: y4 :: t))
        = some ([c1, c2], ' ' :: 'd' :: 'e' :: ' '
            :: (mn ++ ' ' :: 'd' :: 'e' :: ' ' :: y1 :: y2 :: y3 :: y4 :: t)) := by
      simp [takeDigits2, hc1, hc2]
    simp only [List.cons_append, List.nil_append, matchFechaAt, hT, hL, hw, hw2,
      if_neg hmn, hL2, hMS]

theorem searchFecha_header (dc mn : List Char) (y1 y2 y3 y4 : Char) (t : List Char)
    (hd : dc.length = 1 ∨ dc.length = 2) (hdd : ∀ c ∈ dc, c.isDigit)
    (hmn : mn ≠ []) (hmnw : ∀ c ∈ mn, isWordChar c = true)
    (hy1 : y1.isDigit) (hy2 : y2.isDigit) (hy3 : y3.isDigit) (hy4 : y4.isDigit) :
    searchFecha ('a' :: 'l' :: ' '
      :: (dc ++ ' ' :: 'd' :: 'e' :: ' '
        :: (mn ++ ' ' :: 'd' :: 'e' :: ' ' :: y1 :: y2 :: y3 :: y4 :: t)))
      = some (dc, mn, [y1, y2, y3, y4]) := by
  have hM := matchFechaAt_valid dc mn y1 y2 y3 y4 t hd hdd hmn hmnw hy1 hy2 hy3 hy4
  rw [searchFecha_cons_of_none 'a' _ (matchFechaAt_of_nonDigit 'a' _ (by decide))]
  rw [searchFecha_cons_of_none 'l' _ (matchFechaAt_of_nonDigit 'l' _ (by decide))]
  rw [searchFecha_cons_of_none ' ' _ (matchFechaAt_of_nonDigit ' ' _ (by decide))]
  cases dc with
  | nil => rcases hd with h | h <;> simp at h
  | cons c1 l1 =>
    simp only [List.cons_append] at hM ⊢
    simp [searchFecha, hM]

theorem matchFechaAlAt_valid (dc mn : List Char) (y1 y2 y3 y4 : Char) (t : List Char)
    (hd : dc.length = 1 ∨ dc.length = 2) (hdd : ∀ c ∈ dc, c.isDigit)
    (hmn : mn ≠ []) (hmnw : ∀ c ∈ mn, isWordChar c = true)
    (hy1 : y1.isDigit) (hy2 : y2.isDigit) (hy3 : y3.isDigit) (hy4 : y4.isDigit) :
    matchFechaAlAt ('a' :: 'l' :: ' '
      :: (dc ++ ' ' :: 'd' :: 'e' :: ' '
        :: (mn ++ ' ' :: 'd' :: 'e' :: ' ' :: y1 :: y2 :: y3 :: y4 :: t)))
      = some (dc, mn, [y1, y2, y3, y4]) := by
  have hw : List.takeWhile isWordChar
      (mn ++ ' ' :: 'd' :: 'e' :: ' ' :: y1 :: y2 :: y3 :: y4 :: t) = mn :=
    takeWhile_append_of_break isWordChar mn ' ' _ hmnw (by decide)
  have hw2 : List.dropWhile isWordChar
      (mn ++ ' ' :: 'd' :: 'e' :: ' ' :: y1 :: y2 :: y3 :: y4 :: t)
      = ' ' :: 'd' :: 'e' :: ' ' :: y1 :: y2 :: y3 :: y4 :: t :=
    dropWhile_append_of_break isWordChar mn ' ' _ hmnw (by decide)
  have hL : matchLit [' ', 'd', 'e', ' ']
      (' ' :: 'd' :: 'e' :: ' ' :: (mn ++ ' ' :: 'd' :: 'e' :: ' ' :: y1 :: y2 :: y3 :: y4 :: t))
      = some (mn ++ ' ' :: 'd' :: 'e' :: ' ' :: y1 :: y2 :: y3 :: y4 :: t) := by
    simp [matchLit]
  have hL2 : matchLit [' ', 'd', 'e', ' '] (' ' :: 'd' :: 'e' :: ' ' :: y1 :: y2 :: y3 :: y4 :: t)
      = some (y1 :: y2 :: y3 :: y4 :: t) := by
    simp [matchLit]
  rcases hd with h1 | h2
  · obtain ⟨c1, rfl⟩ : ∃ a, dc = [a] := by
      cases dc with
      | nil => simp at h1
      | cons a l1 =>
        cases l1 with
        | nil => exact ⟨a, rfl⟩
        | cons b l2 => simp at h1
    have hc1 : c1.isDigit := hdd c1 (by simp)
    have hT : takeDigits2 (c1 :: ' ' :: 'd' :: 'e' :: ' '
        :: (mn ++ ' ' :: 'd' :: 'e' :: ' ' :: y1 :: y2 :: y3 :: y4 :: t))
        = some ([c1], ' ' :: 'd' :: 'e' :: ' '
            :: (mn ++ ' ' :: 'd' :: 'e' :: ' ' :: y1 :: y2 :: y3 :: y4 :: t)) := by
      simp [takeDigits2, hc1]
    simp only [List.cons_append, List.nil_append, matchFechaAlAt, matchLit,
      if_pos, hT, hL, hw, hw2, if_neg hmn, hL2]
    simp [hy1, hy2, hy3, hy4]
  · obtain ⟨c1, c2, rfl⟩ : ∃ a b, dc = [a, b] := by
      cases dc with
      | nil => simp at h2
      | cons a l1 =>
        cases l1 with
        | nil => simp at h2
        | cons b l2 =>
          cases l2 with
          | nil => exact ⟨a, b, rfl⟩
          | cons c l3 => simp at h2
    have hc1 : c1.isDigit := hdd c1 (by simp)
    have hc2 : c2.isDigit := hdd c2 (by simp)
    have hT : takeDigits2 (c1 :: c2 :: ' ' :: 'd' :: 'e' :: ' '
        :: (mn ++ ' ' :: 'd' :: 'e' :: ' ' :: y1 :: y2 :: y3 :: y4 :: t))
        = some ([c1, c2], ' ' :: 'd' :: 'e' :: ' '
            :: (mn ++ ' ' :: 'd' :: 'e' :: ' ' :: y1 :: y2 :: y3 :: y4 :: t)) := by
      simp [takeDigits2, hc1, hc2]
    simp only [List.cons_append, List.nil_append, matchFechaAlAt, matchLit,
      if_pos, hT, hL, hw, hw2, if_neg hmn, hL2]
    simp [hy1, hy2, hy3, hy4]

theorem searchFechaAl_header (dc mn : List Char) (y1 y2 y3 y4 : Char) (t : List Char)
    (hd : dc.length = 1 ∨ dc.length = 2) (hdd : ∀ c ∈ dc, c.isDigit)
    (hmn : mn ≠ []) (hmnw : ∀ c ∈ mn, isWordChar c = true)
    (hy1 : y1.isDigit) (hy2 : y2.isDigit) (hy3 : y3.isDigit) (hy4 : y4.isDigit) :
    searchFechaAl ('a' :: 'l' :: ' '
      :: (dc ++ ' ' :: 'd' :: 'e' :: ' '
        :: (mn ++ ' ' :: 'd' :: 'e' :: ' ' :: y1 :: y2 :: y3 :: y4 :: t)))
      = some (dc, mn, [y1, y2, y3, y4]) := by
  have hM := matchFechaAlAt_valid dc mn y1 y2 y3 y4 t hd hdd hmn hmnw hy1 hy2 hy3 hy4
  simp [searchFechaAl, hM]
theorem parse_fecha_header_valid (d mn y t : String) (m : Nat)
    (hmn : (mn, m) ∈ month_map)
    (hd : d.data.length = 1 ∨ d.data.length = 2) (hdd : ∀ c ∈ d.data, c.isDigit)
    (hy : y.data.length = 4) (hyd : ∀ c ∈ y.data, c.isDigit) :
    parse_fecha_header ("al " ++ d ++ " de " ++ mn ++ " de " ++ y ++ t)
      = (some (toString (natOfDigits y.data) ++ "-" ++ pad2 m ++ "-" ++ pad2 (natOfDigits d.data)),
         toString (natOfDigits y.data) ++ "_Q" ++ toString ((m - 1) / 3 + 1)) := by
  obtain ⟨hlow, hne, hword, hlook, hm1, hm12⟩ := month_map_facts (mn, m) hmn
  obtain ⟨y1, y2, y3, y4, hydata⟩ : ∃ a b c dd, y.data = [a, b, c, dd] := by
    cases hyl : y.data with
    | nil => rw [hyl] at hy; simp at hy
    | cons a l1 =>
      cases l1 with
      | nil => rw [hyl] at hy; simp at hy
      | cons b l2 =>
        cases l2 with
        | nil => rw [hyl] at hy; simp at hy
        | cons c l3 =>
          cases l3 with
          | nil => rw [hyl] at hy; simp at hy
          | cons dd l4 =>
            cases l4 with
            | nil => exact ⟨a, b, c, dd, rfl⟩
            | cons e l5 => rw [hyl] at hy; simp at hy
  have hdmap : d.data.map Char.toLower = d.data := map_toLower_digits _ hdd
  have hymap : y.data.map Char.toLower = y.data := map_toLower_digits _ hyd
  have hyl1 : y1.toLower = y1 := toLower_of_isDigit _ (hyd y1 (by rw [hydata]; simp))
  have hyl2 : y2.toLower = y2 := toLower_of_isDigit _ (hyd y2 (by rw [hydata]; simp))
  have hyl3 : y3.toLower = y3 := toLower_of_isDigit _ (hyd y3 (by rw [hydata]; simp))
  have hyl4 : y4.toLower = y4 := toLower_of_isDigit _ (hyd y4 (by rw [hydata]; simp))
  have e1 : "al ".data.map Char.toLower = ['a', 'l', ' '] := by decide
  have e2 : " de ".data.map Char.toLower = [' ', 'd', 'e', ' '] := by decide
  have hdata : (("al " ++ d ++ " de " ++ mn ++ " de " ++ y ++ t)).data.map Char.toLower
      = 'a' :: 'l' :: ' ' :: (d.data ++ ' ' :: 'd' :: 'e' :: ' '
          :: (mn.data ++ ' ' :: 'd' :: 'e' :: ' '
            :: (y1 :: y2 :: y3 :: y4 :: (t.data.map Char.toLower)))) := by
    simp only [String.data_append, List.map_append, hdmap, hlow, hymap, e1, e2, hydata]
    simp [List.append_assoc, hyl1, hyl2, hyl3, hyl4]
  have hsearch := searchFecha_header d.data mn.data y1 y2 y3 y4 (t.data.map Char.toLower)
    hd hdd (by simpa using hne) hword
    (hyd y1 (by rw [hydata]; simp)) (hyd y2 (by rw [hydata]; simp))
    (hyd y3 (by rw [hydata]; simp)) (hyd y4 (by rw [hydata]; simp))
  have hmk : String.mk mn.data = mn := rfl
  simp only [parse_fecha_header, hdata, hsearch, hmk, hlook, Option.getD_some]
  rw [quarter_fdiv_ofNat m hm1]
  rw [hydata]
theorem egresos_parse_fecha_valid (d mn y t : String) (m : Nat)
    (hmn : (mn, m) ∈ month_map)
    (hd : d.data.length = 1 ∨ d.data.length = 2) (hdd : ∀ c ∈ d.data, c.isDigit)
    (hy : y.data.length = 4) (hyd : ∀ c ∈ y.data, c.isDigit) :
    egresos_parse_fecha ("al " ++ d ++ " de " ++ mn ++ " de " ++ y ++ t)
      = (toString (natOfDigits y.data) ++ "-" ++ pad2 m ++ "-" ++ pad2 (natOfDigits d.data),
         some ("Q" ++ toString ((m - 1) / 3 + 1))) := by
  obtain ⟨hlow, hne, hword, hlook, hm1, hm12⟩ := month_map_facts (mn, m) hmn
  obtain ⟨y1, y2, y3, y4, hydata⟩ : ∃ a b c dd, y.data = [a, b, c, dd] := by
    cases hyl : y.data with
    | nil => rw [hyl] at hy; simp at hy
    | cons a l1 =>
      cases l1 with
      | nil => rw [hyl] at hy; simp at hy
      | cons b l2 =>
        cases l2 with
        | nil => rw [hyl] at hy; simp at hy
        | cons c l3 =>
          cases l3 with
          | nil => rw [hyl] at hy; simp at hy
          | cons dd l4 =>
            cases l4 with
            | nil => exact ⟨a, b, c, dd, rfl⟩
            | cons e l5 => rw [hyl] at hy; simp at hy
  have hdata : (("al " ++ d ++ " de " ++ mn ++ " de " ++ y ++ t)).data
      = 'a' :: 'l' :: ' ' :: (d.data ++ ' ' :: 'd' :: 'e' :: ' '
          :: (mn.data ++ ' ' :: 'd' :: 'e' :: ' '
            :: (y1 :: y2 :: y3 :: y4 :: t.data))) := by
    simp only [String.data_append, hydata]
    simp [List.append_assoc]
  have hsearch := searchFechaAl_header d.data mn.data y1 y2 y3 y4 t.data
    hd hdd (by simpa using hne) hword
    (hyd y1 (by rw [hydata]; simp)) (hyd y2 (by rw [hydata]; simp))
    (hyd y3 (by rw [hydata]; simp)) (hyd y4 (by rw [hydata]; simp))
  have hmk : String.mk mn.data = mn := rfl
  simp only [egresos_parse_fecha, hdata, hsearch, hlow, hmk, hlook, Option.getD_some]
  rw [quarter_fdiv_ofNat m hm1]
  rw [hydata]
theorem char_toNat_ofNat_valid (n : Nat) (h : n.isValidChar) : (Char.ofNat n).toNat = n := by
  simp only [Char.ofNat, h, reduceDIte, Char.ofNatAux, Char.toNat]
  rfl

theorem isDigit_toLower_false (c : Char) (h : c.isDigit = false) : c.toLower.isDigit = false := by
  simp only [Char.toLower, Char.toNat]
  split
  · next hr =>
    have hv : (c.val.toNat + 32).isValidChar := by
      left
      have h90 : c.val.toNat ≤ 90 := hr.2
      omega
    have he : (Char.ofNat (c.val.toNat + 32)).toNat = c.val.toNat + 32 :=
      char_toNat_ofNat_valid _ hv
    have h65 : 65 ≤ c.val.toNat := hr.1
    simp only [Char.isDigit]
    have hge : ¬ ((Char.ofNat (c.val.toNat + 32)).val ≤ 57) := by
      intro hcon
      have hle : (Char.ofNat (c.val.toNat + 32)).val.toNat ≤ 57 :=
        UInt32.toNat_le_of_le (by decide) hcon
      simp only [Char.toNat] at he
      omega
    simp only [Bool.and_eq_false_iff, decide_eq_false_iff_not]
    right
    exact hge
  · exact h
theorem searchFecha_none_of_noDigit (l : List Char) (h : ∀ c ∈ l, c.isDigit = false) :
    searchFecha l = none := by
  induction l with
  | nil => rfl
  | cons c rest ih =>
    rw [searchFecha_cons_of_none c rest (matchFechaAt_of_nonDigit c rest (h c (by simp)))]
    exact ih (fun x hx => h x (by simp [hx]))

/-- `parse_fecha_header` falls back to `(None, "unknown")` on any text
containing no digit at all (the regex needs a day digit). -/
theorem parse_fecha_header_noDigit (s : String) (h : ∀ c ∈ s.data, c.isDigit = false) :
    parse_fecha_header s = (none, "unknown") := by
  have hl : ∀ c ∈ s.data.map Char.toLower, c.isDigit = false := by
    intro c hc
    obtain ⟨x, hx, rfl⟩ := List.mem_map.mp hc
    exact isDigit_toLower_false x (h x hx)
  simp [parse_fecha_header, searchFecha_none_of_noDigit _ hl]

/-! ### firstIdx characterizations -/

theorem firstIdx_eq_none_iff {α : Type _} (p : α → Bool) (l : List α) :
    firstIdx p l = none ↔ ∀ x ∈ l, p x = false := by
  induction l with
  | nil => simp [firstIdx]
  | cons x xs ih =>
    by_cases hx : p x
    · simp [firstIdx, hx]
    · rw [firstIdx, if_neg hx]
      constructor
      · intro hmap
        have hnone : firstIdx p xs = none := by
          cases hfx : firstIdx p xs with
          | none => rfl
          | some k => rw [hfx] at hmap; simp at hmap
        intro y hy
        rcases List.mem_cons.mp hy with rfl | hm
        · simpa using hx
        · exact ih.mp hnone y hm
      · intro hall
        have hn : firstIdx p xs = none :=
          ih.mpr (fun y hy => hall y (List.mem_cons_of_mem _ hy))
        simp [hn]

theorem firstIdx_eq_some_of_first {α : Type _} (p : α → Bool) (l : List α) (d : α) (i : Nat)
    (hi : i < l.length) (hp : p (l.getD i d) = true)
    (hfirst : ∀ j, j < i → p (l.getD j d) = false) :
    firstIdx p l = some i := by
  induction l generalizing i with
  | nil => simp at hi
  | cons x xs ih =>
    cases i with
    | zero =>
      simp only [List.getD_cons_zero] at hp
      simp [firstIdx, hp]
    | succ k =>
      have hx : p x = false := by
        have h0 := hfirst 0 (by omega)
        simpa using h0
      rw [firstIdx, if_neg (by simp [hx])]
      have hk : firstIdx p xs = some k := by
        apply ih
        · simpa using hi
        · simpa using hp
        · intro j hj
          have hj1 := hfirst (j + 1) (by omega)
          simpa using hj1
      simp [hk]
/-! ### drop_duplicates (keep first) characterizations -/

theorem dedupAux_mem {α β : Type _} [DecidableEq β] (key : α → β) (l : List α) :
    ∀ seen, ∀ m ∈ dedupKeepFirstAux key l seen, m ∈ l := by
  induction l with
  | nil => intro seen m hm; simp [dedupKeepFirstAux] at hm
  | cons x xs ih =>
    intro seen m hm
    by_cases hx : key x ∈ seen
    · rw [dedupKeepFirstAux, if_pos hx] at hm
      exact List.mem_cons_of_mem x (ih seen m hm)
    · rw [dedupKeepFirstAux, if_neg hx] at hm
      rcases List.mem_cons.mp hm with rfl | hm2
      · simp
      · exact List.mem_cons_of_mem x (ih _ m hm2)

theorem dedupAux_key_fresh {α β : Type _} [DecidableEq β] (key : α → β) (l : List α) :
    ∀ seen, ∀ r ∈ dedupKeepFirstAux key l seen, key r ∉ seen := by
  induction l with
  | nil => intro seen r hr; simp [dedupKeepFirstAux] at hr
  | cons x xs ih =>
    intro seen r hr
    by_cases hx : key x ∈ seen
    · rw [dedupKeepFirstAux, if_pos hx] at hr
      exact ih seen r hr
    · rw [dedupKeepFirstAux, if_neg hx] at hr
      rcases List.mem_cons.mp hr with rfl | hr2
      · exact hx
      · have := ih _ r hr2
        exact fun hcon => this (List.mem_cons_of_mem _ hcon)

theorem dedupAux_map_nodup {α β : Type _} [DecidableEq β] (key : α → β) (l : List α) :
    ∀ seen, ((dedupKeepFirstAux key l seen).map key).Nodup := by
  induction l with
  | nil => intro seen; simp [dedupKeepFirstAux]
  | cons x xs ih =>
    intro seen
    by_cases hx : key x ∈ seen
    · rw [dedupKeepFirstAux, if_pos hx]
      exact ih seen
    · rw [dedupKeepFirstAux, if_neg hx]
      simp only [List.map_cons, List.nodup_cons]
      refine ⟨?_, ih _⟩
      intro hmem
      obtain ⟨r, hr, hkr⟩ := List.mem_map.mp hmem
      have := dedupAux_key_fresh key xs _ r hr
      exact this (by simp [hkr])

theorem dedupAux_is_first {α β : Type _} [DecidableEq β] (key : α → β) (l : List α) :
    ∀ seen, ∀ r ∈ dedupKeepFirstAux key l seen,
      l.find? (fun y => key y = key r) = some r := by
  induction l with
  | nil => intro seen r hr; simp [dedupKeepFirstAux] at hr
  | cons x xs ih =>
    intro seen r hr
    by_cases hx : key x ∈ seen
    · rw [dedupKeepFirstAux, if_pos hx] at hr
      have hfresh := dedupAux_key_fresh key xs seen r hr
      have hne : ¬ key x = key r := fun hcon => hfresh (hcon ▸ hx)
      rw [List.find?_cons_of_neg _ (by simpa using hne)]
      exact ih seen r hr
    · rw [dedupKeepFirstAux, if_neg hx] at hr
      rcases List.mem_cons.mp hr with rfl | hr2
      · rw [List.find?_cons_of_pos _ (by simp)]
      · have hfresh := dedupAux_key_fresh key xs _ r hr2
        have hne : ¬ key x = key r := fun hcon => hfresh (by simp [hcon.symm])
        rw [List.find?_cons_of_neg _ (by simpa using hne)]
        exact ih _ r hr2

theorem dedupAux_complete {α β : Type _} [DecidableEq β] (key : α → β) (l : List α) :
    ∀ seen, ∀ y ∈ l, key y ∉ seen →
      ∃ r ∈ dedupKeepFirstAux key l seen, key r = key y := by
  induction l with
  | nil => intro seen y hy; simp at hy
  | cons x xs ih =>
    intro seen y hy hyseen
    by_cases hx : key x ∈ seen
    · rw [dedupKeepFirstAux, if_pos hx]
      rcases List.mem_cons.mp hy with rfl | hm
      · exact absurd hx (by simpa using hyseen)
      · exact ih seen y hm hyseen
    · rw [dedupKeepFirstAux, if_neg hx]
      rcases List.mem_cons.mp hy with rfl | hm
      · exact ⟨y, by simp, rfl⟩
      · by_cases hk : key y = key x
        · exact ⟨x, by simp, hk.symm⟩
        · have hnotin : key y ∉ key x :: seen := by
            intro hcon
            rcases List.mem_cons.mp hcon with h1 | h2
            · exact hk h1
            · exact hyseen h2
          obtain ⟨r, hr, hkr⟩ := ih _ y hm hnotin
          exact ⟨r, List.mem_cons_of_mem x hr, hkr⟩

theorem dedupKeepFirst_sublist_mem {α β : Type _} [DecidableEq β] (key : α → β)
    (l : List α) : ∀ m ∈ dedupKeepFirst key l, m ∈ l :=
  dedupAux_mem key l []

theorem dedupKeepFirst_map_nodup {α β : Type _} [DecidableEq β] (key : α → β) (l : List α) :
    ((dedupKeepFirst key l).map key).Nodup :=
  dedupAux_map_nodup key l []

theorem dedupKeepFirst_is_first {α β : Type _} [DecidableEq β] (key : α → β) (l : List α) :
    ∀ r ∈ dedupKeepFirst key l, l.find? (fun y => key y = key r) = some r :=
  dedupAux_is_first key l []

theorem dedupKeepFirst_complete {α β : Type _} [DecidableEq β] (key : α → β) (l : List α) :
    ∀ y ∈ l, ∃ r ∈ dedupKeepFirst key l, key r = key y := by
  intro y hy
  exact dedupAux_complete key l [] y hy (by simp)

/-! ### Upsert batch lemmas -/

theorem upsertStep_length_of_new {α : Type _} (t : List (String × α)) (x : String × α)
    (hnew : ∀ q ∈ t, x.1 ≠ q.1) : upsertStep t x = t ++ [x] := by
  have hany : t.any (fun p => p.1 = x.1) = false := by
    rw [List.any_eq_false]
    intro q hq
    simp only [decide_eq_true_eq]
    exact fun hcon => hnew q hq (hcon.symm)
  simp [upsertStep, hany]

theorem upsertRows_length_of_new {α : Type _} (batch t : List (String × α))
    (hnodup : (batch.map Prod.fst).Nodup)
    (hnew : ∀ p ∈ batch, ∀ q ∈ t, p.1 ≠ q.1) :
    upsertRows t batch = t ++ batch := by
  induction batch generalizing t with
  | nil => simp [upsertRows]
  | cons x xs ih =>
    have hstep : upsertStep t x = t ++ [x] :=
      upsertStep_length_of_new t x (fun q hq => hnew x (by simp) q hq)
    have hx_not_xs : ∀ p ∈ xs, p.1 ≠ x.1 := by
      intro p hp hcon
      simp only [List.map_cons, List.nodup_cons] at hnodup
      exact hnodup.1 (hcon ▸ List.mem_map_of_mem Prod.fst hp)
    have ihres := ih (t ++ [x])
      (by simp only [List.map_cons, List.nodup_cons] at hnodup; exact hnodup.2)
      (by
        intro p hp q hq
        rcases List.mem_append.mp hq with hq1 | hq2
        · exact hnew p (by simp [hp]) q hq1
        · have : q = x := by simpa using hq2
          subst this
          exact hx_not_xs p hp)
    simp only [upsertRows, List.foldl_cons] at ihres ⊢
    rw [hstep, ihres, List.append_assoc]
    simp
theorem gsk_decomp (ent : Nat → String) (df : Df) (h : "surrogate_key" ∉ df.cols) :
    (generate_surrogate_key ent df).cols = df.cols ++ ["surrogate_key"] ∧
    (generate_surrogate_key ent df).rows
      = List.zipWith (fun r v => r ++ [v]) df.rows
          ((List.range df.rows.length).map (fun i => PyCell.cstr (ent i))) := by
  have hidx : firstIdx (fun c => c = "surrogate_key") df.cols = none := by
    rw [firstIdx_eq_none_iff]
    intro x hx
    simp only [decide_eq_false_iff_not]
    exact fun hcon => h (hcon ▸ hx)
  unfold generate_surrogate_key assignColumn
  rw [hidx]
  exact ⟨rfl, rfl⟩

theorem zipWith_snd_eq_map {α β γ : Type _} (f : β → γ) (as : List α) (bs : List β)
    (h : as.length = bs.length) :
    List.zipWith (fun _ b => f b) as bs = bs.map f := by
  induction as generalizing bs with
  | nil => cases bs with
    | nil => rfl
    | cons b bs2 => simp at h
  | cons a as2 ih =>
    cases bs with
    | nil => simp at h
    | cons b bs2 =>
      simp only [List.zipWith_cons_cons, List.map_cons, List.cons.injEq, true_and]
      exact ih bs2 (by simpa using h)

theorem pipeline_records_decomp (ent : Nat → String) (df : Df)
    (h : "surrogate_key" ∉ df.cols) :
    (pipeline_records ent df).map Prod.fst = (List.range df.rows.length).map ent ∧
    (pipeline_records ent df).length = df.rows.length := by
  obtain ⟨hcols, hrows⟩ := gsk_decomp ent df h
  unfold pipeline_records
  rw [hrows]
  constructor
  · rw [List.map_zipWith, List.zipWith_map_right]
    simp only [List.getLast?_concat]
    rw [List.map_zipWith]
    show List.zipWith (fun _ b => ent b) df.rows (List.range df.rows.length)
      = List.map ent (List.range df.rows.length)
    exact zipWith_snd_eq_map ent df.rows (List.range df.rows.length) (by simp)
  · simp [List.length_zipWith]
theorem gsk_lastCol (ent : Nat → String) (df : Df) (h : "surrogate_key" ∉ df.cols) :
    (generate_surrogate_key ent df).rows.map List.getLast?
      = (List.range df.rows.length).map (fun i => some (PyCell.cstr (ent i))) := by
  obtain ⟨_, hrows⟩ := gsk_decomp ent df h
  rw [hrows, List.map_zipWith, List.zipWith_map_right]
  simp only [List.getLast?_concat]
  show List.zipWith (fun _ b => some (PyCell.cstr (ent b))) df.rows (List.range df.rows.length)
    = _
  exact zipWith_snd_eq_map _ df.rows (List.range df.rows.length) (by simp)

theorem range_map_nodup_of_inj (n : Nat) (f : Nat → String)
    (hinj : ∀ i, i < n → ∀ j, j < n → i ≠ j → f i ≠ f j) :
    ((List.range n).map f).Nodup := by
  apply List.Nodup.map_on
  · intro i hi j hj hf
    by_contra hne
    exact hinj i (List.mem_range.mp hi) j (List.mem_range.mp hj) hne hf
  · exact List.nodup_range n

/-- C1: the surrogate keys are a function of the entropy stream alone (no
record field), so with fresh randomness on each run the re-run keys are all
new and the upsert load grows the table instead of replacing rows. -/
theorem claim_C1_random_identity_breaks_upsert :
    (∀ (ent : Nat → String) (df1 df2 : Df),
      df1.rows.length = df2.rows.length →
      "surrogate_key" ∉ df1.cols → "surrogate_key" ∉ df2.cols →
      (generate_surrogate_key ent df1).rows.map List.getLast?
        = (generate_surrogate_key ent df2).rows.map List.getLast?)
    ∧ (∀ (ent1 ent2 : Nat → String) (df : Df),
      "surrogate_key" ∉ df.cols →
      (∀ i, i < df.rows.length → ∀ j, j < df.rows.length → ent1 i ≠ ent2 j) →
      (∀ i, i < df.rows.length → ∀ j, j < df.rows.length → i ≠ j → ent1 i ≠ ent1 j) →
      (∀ i, i < df.rows.length → ∀ j, j < df.rows.length → i ≠ j → ent2 i ≠ ent2 j) →
      (∀ k ∈ (pipeline_records ent2 df).map Prod.fst,
        k ∉ (pipeline_records ent1 df).map Prod.fst)
      ∧ (upsertRows (upsertRows [] (pipeline_records ent1 df))
          (pipeline_records ent2 df)).length = 2 * df.rows.length
      ∧ (0 < df.rows.length →
        (upsertRows (upsertRows [] (pipeline_records ent1 df))
            (pipeline_records ent2 df)).length
          ≠ (upsertRows [] (pipeline_records ent1 df)).length)) := by
  constructor
  · intro ent df1 df2 hlen h1 h2
    rw [gsk_lastCol ent df1 h1, gsk_lastCol ent df2 h2, hlen]
  · intro ent1 ent2 df hcols hfresh hinj1 hinj2
    obtain ⟨hk1, hl1⟩ := pipeline_records_decomp ent1 df hcols
    obtain ⟨hk2, hl2⟩ := pipeline_records_decomp ent2 df hcols
    have hnodup1 : ((pipeline_records ent1 df).map Prod.fst).Nodup := by
      rw [hk1]; exact range_map_nodup_of_inj _ ent1 hinj1
    have hnodup2 : ((pipeline_records ent2 df).map Prod.fst).Nodup := by
      rw [hk2]; exact range_map_nodup_of_inj _ ent2 hinj2
    have hdisj : ∀ k ∈ (pipeline_records ent2 df).map Prod.fst,
        k ∉ (pipeline_records ent1 df).map Prod.fst := by
      intro k hk hk'
      rw [hk2] at hk
      rw [hk1] at hk'
      obtain ⟨j, hj, rfl⟩ := List.mem_map.mp hk
      obtain ⟨i, hi, hcon⟩ := List.mem_map.mp hk'
      exact hfresh i (List.mem_range.mp hi) j (List.mem_range.mp hj) hcon
    have hT1 : upsertRows [] (pipeline_records ent1 df) = pipeline_records ent1 df := by
      have := upsertRows_length_of_new (pipeline_records ent1 df) [] hnodup1
        (by intro p hp q hq; simp at hq)
      simpa using this
    have hT2 : upsertRows (upsertRows [] (pipeline_records ent1 df))
        (pipeline_records ent2 df)
        = pipeline_records ent1 df ++ pipeline_records ent2 df := by
      rw [hT1]
      apply upsertRows_length_of_new _ _ hnodup2
      intro p hp q hq hcon
      have hkp : p.1 ∈ (pipeline_records ent2 df).map Prod.fst :=
        List.mem_map_of_mem Prod.fst hp
      have hkq : q.1 ∈ (pipeline_records ent1 df).map Prod.fst :=
        List.mem_map_of_mem Prod.fst hq
      exact hdisj p.1 hkp (hcon ▸ hkq)
    refine ⟨hdisj, ?_, ?_⟩
    · rw [hT2]
      rw [List.length_append, hl1, hl2]
      omega
    · intro hpos
      rw [hT2, hT1]
      rw [List.length_append, hl1, hl2]
      omega
/-- Witness for C1 at a concrete two-row frame with two disjoint entropy
streams. -/
theorem claim_C1_random_identity_breaks_upsert_witness :
    ((generate_surrogate_key (fun i => "A" ++ toString i)
        ⟨["concept"], [[PyCell.cstr "x"], [PyCell.cstr "y"]]⟩).rows.map List.getLast?
      = (generate_surrogate_key (fun i => "A" ++ toString i)
        ⟨["concept"], [[PyCell.cstr "u"], [PyCell.cstr "v"]]⟩).rows.map List.getLast?)
    ∧ (upsertRows (upsertRows [] (pipeline_records (fun i => "A" ++ toString i)
        ⟨["concept"], [[PyCell.cstr "x"], [PyCell.cstr "y"]]⟩))
        (pipeline_records (fun i => "B" ++ toString i)
          ⟨["concept"], [[PyCell.cstr "x"], [PyCell.cstr "y"]]⟩)).length = 4 := by
  constructor
  · exact claim_C1_random_identity_breaks_upsert.1 (fun i => "A" ++ toString i)
      ⟨["concept"], [[PyCell.cstr "x"], [PyCell.cstr "y"]]⟩
      ⟨["concept"], [[PyCell.cstr "u"], [PyCell.cstr "v"]]⟩
      (by decide) (by decide) (by decide)
  · have h := (claim_C1_random_identity_breaks_upsert.2 (fun i => "A" ++ toString i)
      (fun i => "B" ++ toString i)
      ⟨["concept"], [[PyCell.cstr "x"], [PyCell.cstr "y"]]⟩
      (by decide) (by decide) (by decide) (by decide)).2.1
    simpa using h
theorem parse_fecha_header_unknownMonth (d mn y t : String)
    (hlow : mn.data.map Char.toLower = mn.data) (hne : mn.data ≠ [])
    (hword : ∀ c ∈ mn.data, isWordChar c = true)
    (hlook : month_map.lookup mn = none)
    (hd : d.data.length = 1 ∨ d.data.length = 2) (hdd : ∀ c ∈ d.data, c.isDigit)
    (hy : y.data.length = 4) (hyd : ∀ c ∈ y.data, c.isDigit) :
    parse_fecha_header ("al " ++ d ++ " de " ++ mn ++ " de " ++ y ++ t)
      = (some (toString (natOfDigits y.data) ++ "-00-" ++ pad2 (natOfDigits d.data)),
         toString (natOfDigits y.data) ++ "_Q0") := by
  obtain ⟨y1, y2, y3, y4, hydata⟩ : ∃ a b c dd, y.data = [a, b, c, dd] := by
    cases hyl : y.data with
    | nil => rw [hyl] at hy; simp at hy
    | cons a l1 =>
      cases l1 with
      | nil => rw [hyl] at hy; simp at hy
      | cons b l2 =>
        cases l2 with
        | nil => rw [hyl] at hy; simp at hy
        | cons c l3 =>
          cases l3 with
          | nil => rw [hyl] at hy; simp at hy
          | cons dd l4 =>
            cases l4 with
            | nil => exact ⟨a, b, c, dd, rfl⟩
            | cons e l5 => rw [hyl] at hy; simp at hy
  have hdmap : d.data.map Char.toLower = d.data := map_toLower_digits _ hdd
  have hymap : y.data.map Char.toLower = y.data := map_toLower_digits _ hyd
  have hyl1 : y1.toLower = y1 := toLower_of_isDigit _ (hyd y1 (by rw [hydata]; simp))
  have hyl2 : y2.toLower = y2 := toLower_of_isDigit _ (hyd y2 (by rw [hydata]; simp))
  have hyl3 : y3.toLower = y3 := toLower_of_isDigit _ (hyd y3 (by rw [hydata]; simp))
  have hyl4 : y4.toLower = y4 := toLower_of_isDigit _ (hyd y4 (by rw [hydata]; simp))
  have e1 : "al ".data.map Char.toLower = ['a', 'l', ' '] := by decide
  have e2 : " de ".data.map Char.toLower = [' ', 'd', 'e', ' '] := by decide
  have hdata : (("al " ++ d ++ " de " ++ mn ++ " de " ++ y ++ t)).data.map Char.toLower
      = 'a' :: 'l' :: ' ' :: (d.data ++ ' ' :: 'd' :: 'e' :: ' '
          :: (mn.data ++ ' ' :: 'd' :: 'e' :: ' '
            :: (y1 :: y2 :: y3 :: y4 :: (t.data.map Char.toLower)))) := by
    simp only [String.data_append, List.map_append, hdmap, hlow, hymap, e1, e2, hydata]
    simp [List.append_assoc, hyl1, hyl2, hyl3, hyl4]
  have hsearch := searchFecha_header d.data mn.data y1 y2 y3 y4 (t.data.map Char.toLower)
    hd hdd hne hword
    (hyd y1 (by rw [hydata]; simp)) (hyd y2 (by rw [hydata]; simp))
    (hyd y3 (by rw [hydata]; simp)) (hyd y4 (by rw [hydata]; simp))
  have hmk : String.mk mn.data = mn := rfl
  simp only [parse_fecha_header, hdata, hsearch, hmk, hlook, Option.getD_none]
  rw [hydata]
  have hq0 : toString ((Int.ofNat 0 - 1).fdiv 3 + 1) = "0" := rfl
  have hp0 : pad2 0 = "0" ++ toString 0 := rfl
  simp only [hq0, hp0, Prod.mk.injEq, Option.some.injEq]
  have h0d : (toString (0 : Nat)).data = ['0'] := rfl
  constructor <;> (apply String.ext; simp [String.data_append, h0d])
/-- C2 counterexample: "al 5 de jenero de 2023" contains no valid period
text (the month word is not in the lexicon), yet `parse_fecha_header` does
not return `(None, "unknown")`: the regex still matches, the month falls
back to 0, and the result is `("2023-00-05", "2023_Q0")`. -/
theorem claim_C2_period_resolver_cex :
    parse_fecha_header "al 5 de jenero de 2023" = (some "2023-00-05", "2023_Q0")
    ∧ parse_fecha_header "al 5 de jenero de 2023" ≠ ((none : Option String), "unknown") := by
  constructor
  · rfl
  · decide

/-- C2 (amended): for headers `"al D de <month> de YYYY<suffix>"` with the
month in the lexicon the resolver returns the zero-padded ISO date and
`"YYYY_Q{(M-1)//3+1}"`; when the regex matches but the month word is outside
the lexicon it returns `("YYYY-00-DD", "YYYY_Q0")` instead of the claimed
`(null, "unknown")`; text containing no digit returns `(null, "unknown")`. -/
theorem claim_C2_period_resolver :
    (∀ (d mn y t : String) (m : Nat),
      (mn, m) ∈ month_map →
      d.data.length = 1 ∨ d.data.length = 2 → (∀ c ∈ d.data, c.isDigit) →
      y.data.length = 4 → (∀ c ∈ y.data, c.isDigit) →
      parse_fecha_header ("al " ++ d ++ " de " ++ mn ++ " de " ++ y ++ t)
        = (some (toString (natOfDigits y.data) ++ "-" ++ pad2 m ++ "-"
              ++ pad2 (natOfDigits d.data)),
           toString (natOfDigits y.data) ++ "_Q" ++ toString ((m - 1) / 3 + 1)))
    ∧ (∀ (d mn y t : String),
      mn.data.map Char.toLower = mn.data → mn.data ≠ [] →
      (∀ c ∈ mn.data, isWordChar c = true) → month_map.lookup mn = none →
      d.data.length = 1 ∨ d.data.length = 2 → (∀ c ∈ d.data, c.isDigit) →
      y.data.length = 4 → (∀ c ∈ y.data, c.isDigit) →
      parse_fecha_header ("al " ++ d ++ " de " ++ mn ++ " de " ++ y ++ t)
        = (some (toString (natOfDigits y.data) ++ "-00-" ++ pad2 (natOfDigits d.data)),
           toString (natOfDigits y.data) ++ "_Q0"))
    ∧ (∀ s : String, (∀ c ∈ s.data, c.isDigit = false) →
      parse_fecha_header s = (none, "unknown")) := by
  refine ⟨?_, ?_, ?_⟩
  · intro d mn y t m hmn hd hdd hy hyd
    exact parse_fecha_header_valid d mn y t m hmn hd hdd hy hyd
  · intro d mn y t hlow hne hword hlook hd hdd hy hyd
    exact parse_fecha_header_unknownMonth d mn y t hlow hne hword hlook hd hdd hy hyd
  · intro s h
    exact parse_fecha_header_noDigit s h

/-- Witness for C2 (amended) at concrete headers. -/
theorem claim_C2_period_resolver_witness :
    parse_fecha_header "al 31 de marzo de 2023" = (some "2023-03-31", "2023_Q1")
    ∧ parse_fecha_header "al 5 de junnio de 2023" = (some "2023-00-05", "2023_Q0")
    ∧ parse_fecha_header "sin fecha" = (none, "unknown") := by
  refine ⟨?_, ?_, ?_⟩
  · have h := claim_C2_period_resolver.1 "31" "marzo" "2023" "" 3 (by decide)
      (by decide) (by decide) (by decide) (by decide)
    rw [show ("al 31 de marzo de 2023" : String)
        = "al " ++ "31" ++ " de " ++ "marzo" ++ " de " ++ "2023" ++ "" from rfl]
    rw [h]
    decide
  · have h := claim_C2_period_resolver.2.1 "5" "junnio" "2023" "" (by decide)
      (by decide) (by decide) (by decide) (by decide) (by decide) (by decide) (by decide)
    rw [show ("al 5 de junnio de 2023" : String)
        = "al " ++ "5" ++ " de " ++ "junnio" ++ " de " ++ "2023" ++ "" from rfl]
    rw [h]
    decide
  · exact claim_C2_period_resolver.2.2 "sin fecha" (by decide)
theorem char_eq_of_toNat (c d : Char) (h : c.toNat = d.toNat) : c = d := by
  apply Char.ext
  exact UInt32.ext h

theorem toLower_options (c w : Char) (h : c.toLower = w) :
    c = w ∨ (c.toNat + 32 = w.toNat ∧ 65 ≤ c.toNat ∧ c.toNat ≤ 90) := by
  simp only [Char.toLower, Char.toNat] at h
  by_cases hr : (c.val.toNat ≥ 65 ∧ c.val.toNat ≤ 90)
  · rw [if_pos hr] at h
    right
    have hv : (c.val.toNat + 32).isValidChar := by
      left
      omega
    have := char_toNat_ofNat_valid _ hv
    rw [h] at this
    simp only [Char.toNat] at this ⊢
    exact ⟨this.symm ▸ rfl, hr.1, hr.2⟩
  · rw [if_neg hr] at h
    left
    exact h
theorem isAlpha_toNat (c : Char) (h : c.isAlpha = true) :
    (65 ≤ c.toNat ∧ c.toNat ≤ 90) ∨ (97 ≤ c.toNat ∧ c.toNat ≤ 122) := by
  simp only [Char.isAlpha, Char.isUpper, Char.isLower, Bool.or_eq_true, Bool.and_eq_true,
    decide_eq_true_eq, ge_iff_le] at h
  simp only [Char.toNat]
  rcases h with ⟨h1, h2⟩ | ⟨h1, h2⟩
  · left
    exact ⟨UInt32.le_toNat_of_le (by decide) h1, UInt32.toNat_le_of_le (by decide) h2⟩
  · right
    exact ⟨UInt32.le_toNat_of_le (by decide) h1, UInt32.toNat_le_of_le (by decide) h2⟩

theorem isPySpace_false_of_alpha (c : Char) (h : c.isAlpha = true) : isPySpace c = false := by
  have hn := isAlpha_toNat c h
  rcases hn with ⟨h1, h2⟩ | ⟨h1, h2⟩ <;>
  · simp only [isPySpace, Bool.or_eq_false_iff, decide_eq_false_iff_not]
    refine ⟨⟨⟨⟨⟨?_, ?_⟩, ?_⟩, ?_⟩, ?_⟩, ?_⟩ <;>
      first
      | (intro hcon; subst hcon; revert h1 h2; decide)
      | (intro hcon; omega)

theorem isDigit_false_of_alpha (c : Char) (h : c.isAlpha = true) : c.isDigit = false := by
  have hn := isAlpha_toNat c h
  simp only [Char.isDigit, Bool.and_eq_false_iff, decide_eq_false_iff_not]
  right
  intro hcon
  have hle : c.val.toNat ≤ 57 := UInt32.toNat_le_of_le (by decide) hcon
  simp only [Char.toNat] at hn
  rcases hn with ⟨h1, h2⟩ | ⟨h1, h2⟩ <;> omega

theorem ne_symbol_of_alpha (c : Char) (h : c.isAlpha = true) (w : Char)
    (hw : w.isAlpha = false) : c ≠ w := by
  intro hcon
  subst hcon
  rw [h] at hw
  simp at hw
theorem dropWhile_id_of_false (p : Char → Bool) (l : List Char)
    (h : ∀ c ∈ l, p c = false) : l.dropWhile p = l := by
  cases l with
  | nil => rfl
  | cons x xs => simp [List.dropWhile_cons, h x (by simp)]

theorem stripChars_id_of_noSpace (l : List Char) (h : ∀ c ∈ l, isPySpace c = false) :
    stripChars l = l := by
  unfold stripChars
  rw [dropWhile_id_of_false _ l h]
  rw [dropWhile_id_of_false _ l.reverse (fun c hc => h c (List.mem_reverse.mp hc))]
  exact List.reverse_reverse l

theorem lowerEq_none_head (w : Char) (ws : List Char) (c : Char) (cs : List Char)
    (h : ¬ c.toLower = w) : lowerEq (w :: ws) (c :: cs) = none := by
  simp [lowerEq, h]

theorem parseNumber_none_head (c : Char) (cs : List Char) (hd : c.isDigit = false)
    (hp : ¬ c = '.') : parseNumber (c :: cs) = none := by
  simp [parseNumber, takeDigitPart, hd, hp]

theorem toLower_ne_of_alpha_ne (c w wup : Char) (hw : wup.toNat + 32 = w.toNat)
    (h1 : c ≠ w) (h2 : c ≠ wup) : ¬ c.toLower = w := by
  intro hcon
  rcases toLower_options c w hcon with rfl | ⟨hplus, h65, h90⟩
  · exact h1 rfl
  · exact h2 (char_eq_of_toNat c wup (by omega))

theorem parseAfterSign_none_of_alpha (c : Char) (cs : List Char)
    (hA : c.isAlpha = true) (hi : c ≠ 'i') (hI : c ≠ 'I') (hn : c ≠ 'n') (hN : c ≠ 'N') :
    parseAfterSign (c :: cs) false = none := by
  have hli : ¬ c.toLower = 'i' :=
    toLower_ne_of_alpha_ne c 'i' 'I' (by decide) hi hI
  have hln : ¬ c.toLower = 'n' :=
    toLower_ne_of_alpha_ne c 'n' 'N' (by decide) hn hN
  have e1 : lowerEq "infinity".data (c :: cs) = none := by
    rw [show "infinity".data = 'i' :: "nfinity".data from rfl]
    exact lowerEq_none_head _ _ _ _ hli
  have e2 : lowerEq "inf".data (c :: cs) = none := by
    rw [show "inf".data = 'i' :: "nf".data from rfl]
    exact lowerEq_none_head _ _ _ _ hli
  have e3 : lowerEq "nan".data (c :: cs) = none := by
    rw [show "nan".data = 'n' :: "an".data from rfl]
    exact lowerEq_none_head _ _ _ _ hln
  have e4 : parseNumber (c :: cs) = none :=
    parseNumber_none_head c cs (isDigit_false_of_alpha c hA)
      (ne_symbol_of_alpha c hA '.' (by decide))
  simp [parseAfterSign, e1, e2, e3, e4]
/-- C7: `clean_amount` parses locale-formatted amounts ("1,000", "$2,000"),
returns null on empty or non-numeric text, and deleting any `,`, `$` or
space from the value never changes the result; the bare `except` makes the
function total (its Lean embedding returns an `Option`, never an error). -/
theorem claim_C7_clean_amount :
    clean_amount (PyCell.cstr "1,000") = some (PyFloat.fin 1000)
    ∧ clean_amount (PyCell.cstr "$2,000") = some (PyFloat.fin 2000)
    ∧ clean_amount (PyCell.cstr "") = none
    ∧ (∀ s : String,
        (∀ c ∈ s.data, c.isAlpha = true ∧ c ≠ 'i' ∧ c ≠ 'I' ∧ c ≠ 'n' ∧ c ≠ 'N') →
        clean_amount (PyCell.cstr s) = none)
    ∧ (∀ (a b : String) (c : Char), c ∈ [',', '$', ' '] →
        clean_amount (PyCell.cstr (a ++ String.mk [c] ++ b))
          = clean_amount (PyCell.cstr (a ++ b))) := by
  refine ⟨by decide, by decide, by decide, ?_, ?_⟩
  · intro s hs
    unfold clean_amount pythonFloatOfString
    simp only [pyStr]
    have hsub : ∀ c ∈ s.data.filter (fun c => !(c = ',' || c = '$' || c = ' ')),
        c.isAlpha = true ∧ c ≠ 'i' ∧ c ≠ 'I' ∧ c ≠ 'n' ∧ c ≠ 'N' := by
      intro c hc
      exact hs c (List.mem_of_mem_filter hc)
    rw [stripChars_id_of_noSpace _
      (fun c hc => isPySpace_false_of_alpha c (hsub c hc).1)]
    cases hfl : s.data.filter (fun c => !(c = ',' || c = '$' || c = ' ')) with
    | nil => rfl
    | cons c cs =>
      have hcprops := hsub c (by rw [hfl]; simp)
      have hplus : ¬ c = '+' := ne_symbol_of_alpha c hcprops.1 '+' (by decide)
      have hminus : ¬ c = '-' := ne_symbol_of_alpha c hcprops.1 '-' (by decide)
      show (if c = '+' then parseAfterSign cs false
        else if c = '-' then parseAfterSign cs true
        else parseAfterSign (c :: cs) false) = none
      rw [if_neg hplus, if_neg hminus]
      exact parseAfterSign_none_of_alpha c cs hcprops.1
        hcprops.2.1 hcprops.2.2.1 hcprops.2.2.2.1 hcprops.2.2.2.2
  · intro a b c hc
    unfold clean_amount
    simp only [pyStr]
    have hdata : (a ++ String.mk [c] ++ b).data = a.data ++ [c] ++ b.data := by
      simp [String.data_append]
    have hdata2 : (a ++ b).data = a.data ++ b.data := by
      simp [String.data_append]
    rw [hdata, hdata2]
    simp only [List.mem_cons, List.not_mem_nil, or_false] at hc
    have hkeep : (fun x => !(x = ',' || x = '$' || x = ' ')) c = false := by
      rcases hc with rfl | rfl | rfl <;> rfl
    have hfeq : (a.data ++ [c] ++ b.data).filter (fun x => !(x = ',' || x = '$' || x = ' '))
        = (a.data ++ b.data).filter (fun x => !(x = ',' || x = '$' || x = ' ')) := by
      simp only [List.filter_append, List.filter_cons, hkeep]
      simp
    rw [hfeq]
/-- Witness for C7's quantified parts: a letters-only value parses to null,
and deleting a comma/dollar/space does not change a parse. -/
theorem claim_C7_clean_amount_witness :
    clean_amount (PyCell.cstr "Total") = none
    ∧ clean_amount (PyCell.cstr ("12" ++ String.mk [','] ++ "50"))
        = clean_amount (PyCell.cstr ("12" ++ "50")) := by
  constructor
  · exact claim_C7_clean_amount.2.2.2.1 "Total" (by decide)
  · exact claim_C7_clean_amount.2.2.2.2 "12" "50" ',' (by decide)
/-- C9 counterexample: the `overwrite` load policy is not one all-or-nothing
transaction.  `PostgreSqlClient.overwrite` drops the table in its own
transaction and inserts in another: when the insert fails, the destination
is left as a freshly created empty table, not in its prior state. -/
theorem claim_C9_load_atomicity_cex :
    overwrite_run [("k2", [])] false (some [("k1", [PyCell.cstr "v"])])
      = Except.error (some [])
    ∧ (some [] : DBState) ≠ some [("k1", [PyCell.cstr "v"])] :=
  ⟨rfl, by decide⟩

/-- C9 (amended): the `insert` and `upsert` policies and `bulk_load`'s
truncate-plus-insert each run their destination write in one transaction, so
a mid-load failure leaves an existing table's contents unchanged; the
`overwrite` policy (drop in one transaction, insert in another) instead
leaves the table empty when the insert fails. -/
theorem claim_C9_load_atomicity :
    (∀ (rows prior : List (String × List PyCell)),
      insert_run rows false (some prior) = Except.error (some prior))
    ∧ (∀ (rows prior : List (String × List PyCell)),
      upsert_run rows false (some prior) = Except.error (some prior))
    ∧ (∀ (rows prior : List (String × List PyCell)),
      bulk_load_run rows false (some prior) = Except.error (some prior))
    ∧ (∀ (rows prior : List (String × List PyCell)),
      overwrite_run rows false (some prior) = Except.error (some [])) := by
  refine ⟨?_, ?_, ?_, ?_⟩ <;> intro rows prior <;> rfl

/-- C10 counterexample: on a frame that already has a `surrogate_key`
column, pandas column assignment rewrites that column in place — no column
is added, and the pre-existing values change. -/
theorem claim_C10_surrogate_frame_cex :
    (generate_surrogate_key (fun _ => "new")
      ⟨["surrogate_key"], [[PyCell.cstr "old"]]⟩).cols = ["surrogate_key"]
    ∧ (generate_surrogate_key (fun _ => "new")
      ⟨["surrogate_key"], [[PyCell.cstr "old"]]⟩).rows = [[PyCell.cstr "new"]]
    ∧ ([[PyCell.cstr "new"]] : List (List PyCell)) ≠ [[PyCell.cstr "old"]] :=
  ⟨by decide, by decide, by decide⟩

/-- C10 (amended): on every frame without a pre-existing `surrogate_key`
column, `generate_surrogate_key` appends exactly that one column and leaves
the rest of the frame intact: same row count, same row order, every
pre-existing cell unchanged, each row only extended by its key. -/
theorem claim_C10_surrogate_frame (ent : Nat → String) (df : Df)
    (h : "surrogate_key" ∉ df.cols) :
    (generate_surrogate_key ent df).cols = df.cols ++ ["surrogate_key"]
    ∧ (generate_surrogate_key ent df).rows.length = df.rows.length
    ∧ ∀ i, i < df.rows.length →
      (generate_surrogate_key ent df).rows.getD i []
        = df.rows.getD i [] ++ [PyCell.cstr (ent i)] := by
  obtain ⟨hcols, hrows⟩ := gsk_decomp ent df h
  refine ⟨hcols, ?_, ?_⟩
  · rw [hrows]
    simp [List.length_zipWith]
  · intro i hi
    rw [hrows]
    have hlen : (List.zipWith (fun r v => r ++ [v]) df.rows
        ((List.range df.rows.length).map (fun i => PyCell.cstr (ent i)))).length
        = df.rows.length := by
      simp [List.length_zipWith]
    rw [List.getD_eq_getElem _ _ (by rw [hlen]; exact hi),
        List.getD_eq_getElem _ _ hi]
    simp [List.getElem_zipWith]

/-- Witness for C10 (amended) on a one-row frame. -/
theorem claim_C10_surrogate_frame_witness :
    (generate_surrogate_key (fun _ => "k") ⟨["a"], [[PyCell.cstr "x"]]⟩).cols
      = ["a", "surrogate_key"]
    ∧ (generate_surrogate_key (fun _ => "k") ⟨["a"], [[PyCell.cstr "x"]]⟩).rows.length = 1
    ∧ (generate_surrogate_key (fun _ => "k")
        ⟨["a"], [[PyCell.cstr "x"]]⟩).rows.getD 0 []
      = [PyCell.cstr "x", PyCell.cstr "k"] := by
  have h := claim_C10_surrogate_frame (fun _ => "k") ⟨["a"], [[PyCell.cstr "x"]]⟩ (by decide)
  refine ⟨h.1, h.2.1, ?_⟩
  have h0 := h.2.2 0 (by decide)
  simpa using h0
/-- C4: in the budget-balance dedup stage and in each egresos section
processed by `procesar_tabla`, at most one row is kept per extracted code;
the kept row is the first matching row of the (filtered) input, and every
code that occurs in the input is still represented (later duplicates are
dropped silently, nothing else is lost). -/
theorem claim_C4_dedup_first_wins :
    (∀ rows : List (List PyCell),
      ((balance_dedup (balance_filter rows)).map
          (fun r => codeKey (pyStr (r.getD 1 PyCell.cnan)).data)).Nodup
      ∧ (∀ r ∈ balance_dedup (balance_filter rows),
          (balance_filter rows).find?
            (fun y => codeKey (pyStr (y.getD 1 PyCell.cnan)).data
              = codeKey (pyStr (r.getD 1 PyCell.cnan)).data) = some r)
      ∧ (∀ y ∈ balance_filter rows, ∃ r ∈ balance_dedup (balance_filter rows),
          codeKey (pyStr (r.getD 1 PyCell.cnan)).data
            = codeKey (pyStr (y.getD 1 PyCell.cnan)).data))
    ∧ (∀ (tbl : List (List PyCell)) (fecha : String) (cuarto : Option String),
      ((procesar_tabla tbl fecha cuarto).map (fun p => p.codigo)).Nodup
      ∧ (∀ p ∈ procesar_tabla tbl fecha cuarto,
          (tbl.filter (fun r =>
              (extract_codigo (pyStr (r.getD 0 PyCell.cnan))).isSome)).find?
            (fun y => extract_codigo (pyStr (y.getD 0 PyCell.cnan)) = p.codigo)
            = some p.cells)
      ∧ (∀ y ∈ tbl, (extract_codigo (pyStr (y.getD 0 PyCell.cnan))).isSome →
          ∃ p ∈ procesar_tabla tbl fecha cuarto,
            p.codigo = extract_codigo (pyStr (y.getD 0 PyCell.cnan)))) := by
  constructor
  · intro rows
    exact ⟨dedupKeepFirst_map_nodup _ _,
      fun r hr => dedupKeepFirst_is_first _ _ r hr,
      fun y hy => dedupKeepFirst_complete _ _ y hy⟩
  · intro tbl fecha cuarto
    refine ⟨?_, ?_, ?_⟩
    · unfold procesar_tabla
      rw [List.map_map]
      exact dedupKeepFirst_map_nodup _ _
    · intro p hp
      unfold procesar_tabla at hp
      obtain ⟨r, hr, rfl⟩ := List.mem_map.mp hp
      exact dedupKeepFirst_is_first _ _ r hr
    · intro y hy hsome
      have hyf : y ∈ tbl.filter (fun r =>
          (extract_codigo (pyStr (r.getD 0 PyCell.cnan))).isSome) := by
        rw [List.mem_filter]
        exact ⟨hy, hsome⟩
      obtain ⟨r, hr, hkr⟩ := dedupKeepFirst_complete
        (fun r => extract_codigo (pyStr (r.getD 0 PyCell.cnan))) _ y hyf
      refine ⟨⟨r, extract_codigo (pyStr (r.getD 0 PyCell.cnan)), fecha, cuarto⟩, ?_, hkr⟩
      unfold procesar_tabla
      exact List.mem_map_of_mem _ hr

/-- Witness for C4 on a concrete egresos section table with a duplicated
code and on a concrete budget-balance grid with a duplicated code. -/
theorem claim_C4_dedup_first_wins_witness :
    ((procesar_tabla [[PyCell.cstr "a1) X", PyCell.cint 1],
        [PyCell.cstr "a1) Y", PyCell.cint 2],
        [PyCell.cstr "Total", PyCell.cint 3]] "f" (some "Q1")).map
      (fun p => p.codigo)).Nodup
    ∧ ([[PyCell.cstr "a1) X", PyCell.cint 1], [PyCell.cstr "a1) Y", PyCell.cint 2],
        [PyCell.cstr "Total", PyCell.cint 3]].filter (fun r =>
          (extract_codigo (pyStr (r.getD 0 PyCell.cnan))).isSome)).find?
        (fun y => extract_codigo (pyStr (y.getD 0 PyCell.cnan)) = some "A1")
      = some [PyCell.cstr "a1) X", PyCell.cint 1]
    ∧ ((balance_dedup (balance_filter
        [[PyCell.cnan, PyCell.cstr "A1. uno"], [PyCell.cnan, PyCell.cstr "A1. dos"]])).map
      (fun r => codeKey (pyStr (r.getD 1 PyCell.cnan)).data)).Nodup := by
  have h2 := claim_C4_dedup_first_wins.2
    [[PyCell.cstr "a1) X", PyCell.cint 1], [PyCell.cstr "a1) Y", PyCell.cint 2],
     [PyCell.cstr "Total", PyCell.cint 3]] "f" (some "Q1")
  refine ⟨h2.1, ?_, (claim_C4_dedup_first_wins.1
    [[PyCell.cnan, PyCell.cstr "A1. uno"], [PyCell.cnan, PyCell.cstr "A1. dos"]]).1⟩
  have hfind := h2.2.1 ⟨[PyCell.cstr "a1) X", PyCell.cint 1], some "A1", "f", some "Q1"⟩
    (by decide)
  simpa using hfind
theorem extraer_isSome_of_matches (s : String) (h : matchesBalanceCode s = true) :
    (extraer_codigo_y_sublabel s).1.isSome := by
  unfold matchesBalanceCode at h
  unfold extraer_codigo_y_sublabel
  cases hk : codeKey s.data with
  | none => rw [hk] at h; simp at h
  | some code => simp

/-- The ingresos counterexample grid: a well-formed sheet whose first data
row (sheet row 7, the start of the fixed section-I range) is a "Total" line
matching neither key grammar. -/
def ingresosCexGrid : List (List PyCell) :=
  [[PyCell.cstr "", PyCell.cstr "", PyCell.cstr "", PyCell.cstr "", PyCell.cstr "",
    PyCell.cstr "", PyCell.cstr "", PyCell.cstr ""],
   [PyCell.cstr "", PyCell.cstr "", PyCell.cstr "", PyCell.cstr "", PyCell.cstr "",
    PyCell.cstr "", PyCell.cstr "", PyCell.cstr ""],
   [PyCell.cstr "", PyCell.cstr "", PyCell.cstr "", PyCell.cstr "", PyCell.cstr "",
    PyCell.cstr "", PyCell.cstr "", PyCell.cstr ""],
   [PyCell.cstr "", PyCell.cstr "al 31 de marzo de 2023", PyCell.cstr "", PyCell.cstr "",
    PyCell.cstr "", PyCell.cstr "", PyCell.cstr "", PyCell.cstr ""],
   [PyCell.cstr "", PyCell.cstr "", PyCell.cstr "", PyCell.cstr "", PyCell.cstr "",
    PyCell.cstr "", PyCell.cstr "", PyCell.cstr ""],
   [PyCell.cstr "", PyCell.cstr "", PyCell.cstr "", PyCell.cstr "", PyCell.cstr "",
    PyCell.cstr "", PyCell.cstr "", PyCell.cstr ""],
   [PyCell.cstr "", PyCell.cstr "", PyCell.cstr "", PyCell.cstr "", PyCell.cstr "",
    PyCell.cstr "", PyCell.cstr "", PyCell.cstr ""],
   [PyCell.cstr "", PyCell.cstr "Total", PyCell.cint 1, PyCell.cint 2, PyCell.cint 3,
    PyCell.cint 4, PyCell.cint 5, PyCell.cint 6]]

/-- C6 counterexample: the detailed-income transform keeps the "Total" row,
whose Code/Label Splitter yields no code at all — its output row carries
null `clave_primaria` and `clave_secundaria`, so not every family discards
codeless rows. -/
theorem claim_C6_codeless_rows_cex :
    transform_ingresos_detallado_data ingresosCexGrid
      = some [⟨[PyCell.cstr "Total", PyCell.cint 1, PyCell.cint 2, PyCell.cint 3,
          PyCell.cint 4, PyCell.cint 5, PyCell.cint 6],
        none, none, "2023-03-31", "2023_Q1", "I"⟩] := by decide

/-- C6 (amended): the budget-balance and detailed-expenditure transforms
discard every row without an extractable code (each output row's code is
present), but the detailed-income transform keeps all section rows — rows
whose concepto matches neither key pattern are retained with null keys. -/
theorem claim_C6_codeless_rows :
    (∀ (df : List (List PyCell)) (out : List BPRow),
      transform_balance_presupuestario_data df = some out →
      ∀ row ∈ out, row.concept.isSome)
    ∧ (∀ (df : List (List PyCell)) (out : List EgRow),
      transform_egresos_detallado_data df = some out →
      ∀ row ∈ out, row.codigo.isSome)
    ∧ (∀ (tbl : List (List PyCell)) (fecha cuarto seccion : String),
      (procesar_tabla_ingresos tbl fecha cuarto seccion).length = tbl.length) := by
  refine ⟨?_, ?_, ?_⟩
  · intro df out htr row hrow
    unfold transform_balance_presupuestario_data at htr
    by_cases hguard : 4 ≤ df.length ∧ ∀ r ∈ df, r.length = 5
    · rw [if_pos hguard] at htr
      cases hcell : getCell df 3 1 with
      | cstr hh =>
        rw [hcell] at htr
        simp only [Option.some.injEq] at htr
        subst htr
        unfold balance_melt at hrow
        rcases List.mem_append.mp hrow with h1 | h2
        · rcases List.mem_append.mp h1 with h11 | h12
          · obtain ⟨it, hit, rfl⟩ := List.mem_map.mp h11
            obtain ⟨r, hr, rfl⟩ := List.mem_map.mp hit
            have hrf : r ∈ balance_filter df := dedupKeepFirst_sublist_mem _ _ r hr
            have hmc := (List.mem_filter.mp hrf).2
            exact extraer_isSome_of_matches _ hmc
          · obtain ⟨it, hit, rfl⟩ := List.mem_map.mp h12
            obtain ⟨r, hr, rfl⟩ := List.mem_map.mp hit
            have hrf : r ∈ balance_filter df := dedupKeepFirst_sublist_mem _ _ r hr
            have hmc := (List.mem_filter.mp hrf).2
            exact extraer_isSome_of_matches _ hmc
        · obtain ⟨it, hit, rfl⟩ := List.mem_map.mp h2
          obtain ⟨r, hr, rfl⟩ := List.mem_map.mp hit
          have hrf : r ∈ balance_filter df := dedupKeepFirst_sublist_mem _ _ r hr
          have hmc := (List.mem_filter.mp hrf).2
          exact extraer_isSome_of_matches _ hmc
      | cint z => rw [hcell] at htr; simp at htr
      | cnan => rw [hcell] at htr; simp at htr
    · rw [if_neg hguard] at htr
      simp at htr
  · intro df out htr row hrow
    unfold transform_egresos_detallado_data at htr
    by_cases hguard : 5 ≤ df.length ∧ ∀ r ∈ df, 8 ≤ r.length
    · rw [if_pos hguard] at htr
      cases hidx : firstIdx (fun r => isAnchorII (pyStr (r.getD 1 PyCell.cnan))) df with
      | none => rw [hidx] at htr; simp at htr
      | some i =>
        rw [hidx] at htr
        simp only [Option.some.injEq] at htr
        subst htr
        rcases List.mem_append.mp hrow with h1 | h2
        · obtain ⟨p, hp, rfl⟩ := List.mem_map.mp h1
          unfold procesar_tabla at hp
          obtain ⟨r, hr, rfl⟩ := List.mem_map.mp hp
          have hrf := dedupKeepFirst_sublist_mem _ _ r hr
          exact (List.mem_filter.mp hrf).2
        · obtain ⟨p, hp, rfl⟩ := List.mem_map.mp h2
          unfold procesar_tabla at hp
          obtain ⟨r, hr, rfl⟩ := List.mem_map.mp hp
          have hrf := dedupKeepFirst_sublist_mem _ _ r hr
          exact (List.mem_filter.mp hrf).2
    · rw [if_neg hguard] at htr
      simp at htr
  · intro tbl fecha cuarto seccion
    unfold procesar_tabla_ingresos
    simp
/-- The one-row budget-balance and expenditure grids used to exercise C6. -/
def balanceWitnessGrid : List (List PyCell) :=
  [[PyCell.cnan, PyCell.cnan, PyCell.cnan, PyCell.cnan, PyCell.cnan],
   [PyCell.cnan, PyCell.cnan, PyCell.cnan, PyCell.cnan, PyCell.cnan],
   [PyCell.cnan, PyCell.cnan, PyCell.cnan, PyCell.cnan, PyCell.cnan],
   [PyCell.cnan, PyCell.cstr "al 31 de marzo de 2023", PyCell.cnan, PyCell.cnan, PyCell.cnan],
   [PyCell.cnan, PyCell.cstr "Totales", PyCell.cint 7, PyCell.cint 8, PyCell.cint 9],
   [PyCell.cnan, PyCell.cstr "A1. Concepto", PyCell.cint 1, PyCell.cint 2, PyCell.cint 3]]

def egresosWitnessGrid : List (List PyCell) :=
  [[PyCell.cnan, PyCell.cnan, PyCell.cnan, PyCell.cnan, PyCell.cnan, PyCell.cnan,
    PyCell.cnan, PyCell.cnan],
   [PyCell.cnan, PyCell.cnan, PyCell.cnan, PyCell.cnan, PyCell.cnan, PyCell.cnan,
    PyCell.cnan, PyCell.cnan],
   [PyCell.cnan, PyCell.cnan, PyCell.cnan, PyCell.cnan, PyCell.cnan, PyCell.cnan,
    PyCell.cnan, PyCell.cnan],
   [PyCell.cnan, PyCell.cnan, PyCell.cnan, PyCell.cnan, PyCell.cnan, PyCell.cnan,
    PyCell.cnan, PyCell.cnan],
   [PyCell.cnan, PyCell.cstr "al 31 de marzo de 2023", PyCell.cnan, PyCell.cnan,
    PyCell.cnan, PyCell.cnan, PyCell.cnan, PyCell.cnan],
   [PyCell.cnan, PyCell.cnan, PyCell.cnan, PyCell.cnan, PyCell.cnan, PyCell.cnan,
    PyCell.cnan, PyCell.cnan],
   [PyCell.cnan, PyCell.cnan, PyCell.cnan, PyCell.cnan, PyCell.cnan, PyCell.cnan,
    PyCell.cnan, PyCell.cnan],
   [PyCell.cnan, PyCell.cnan, PyCell.cnan, PyCell.cnan, PyCell.cnan, PyCell.cnan,
    PyCell.cnan, PyCell.cnan],
   [PyCell.cnan, PyCell.cstr "Totales", PyCell.cint 7, PyCell.cint 7, PyCell.cint 7,
    PyCell.cint 7, PyCell.cint 7, PyCell.cint 7],
   [PyCell.cnan, PyCell.cstr "a1) Foo", PyCell.cint 1, PyCell.cint 2, PyCell.cint 3,
    PyCell.cint 4, PyCell.cint 5, PyCell.cint 6],
   [PyCell.cnan, PyCell.cstr "II. Gasto Etiquetado", PyCell.cnan, PyCell.cnan,
    PyCell.cnan, PyCell.cnan, PyCell.cnan, PyCell.cnan]]

/-- Witness for C6: the quantified parts applied at concrete grids where a
codeless "Totales" row exists in the data region. -/
theorem claim_C6_codeless_rows_witness :
    (∀ row ∈ (transform_balance_presupuestario_data balanceWitnessGrid).getD [],
      row.concept.isSome)
    ∧ (∀ row ∈ (transform_egresos_detallado_data egresosWitnessGrid).getD [],
      row.codigo.isSome)
    ∧ (procesar_tabla_ingresos [[PyCell.cstr "Total"]] "f" "c" "I").length = 1 := by
  refine ⟨?_, ?_, ?_⟩
  · intro row hrow
    apply claim_C6_codeless_rows.1 balanceWitnessGrid
      ((transform_balance_presupuestario_data balanceWitnessGrid).getD [])
      (by decide) row hrow
  · intro row hrow
    apply claim_C6_codeless_rows.2.1 egresosWitnessGrid
      ((transform_egresos_detallado_data egresosWitnessGrid).getD [])
      (by decide) row hrow
  · exact claim_C6_codeless_rows.2.2 [[PyCell.cstr "Total"]] "f" "c" "I"
theorem filter_mkband_eq (items : List BPLine) (yq : String) (fd : Option String)
    (nm : String) (g : BPLine → Option PyFloat) :
    (items.map (fun it => (⟨it.concept, it.sublabel, yq, fd, nm, g it⟩ : BPRow))).filter
        (fun r => r.mtype = nm)
      = items.map (fun it => (⟨it.concept, it.sublabel, yq, fd, nm, g it⟩ : BPRow)) := by
  rw [List.filter_map]
  have h : ((fun (r : BPRow) => decide (r.mtype = nm))
      ∘ (fun it => (⟨it.concept, it.sublabel, yq, fd, nm, g it⟩ : BPRow))) = fun _ => true := by
    funext it
    simp
  rw [h]
  simp

theorem filter_mkband_ne (items : List BPLine) (yq : String) (fd : Option String)
    (nm nm2 : String) (g : BPLine → Option PyFloat) (hne : nm ≠ nm2) :
    (items.map (fun it => (⟨it.concept, it.sublabel, yq, fd, nm, g it⟩ : BPRow))).filter
        (fun r => r.mtype = nm2)
      = [] := by
  rw [List.filter_map]
  have h : ((fun (r : BPRow) => decide (r.mtype = nm2))
      ∘ (fun it => (⟨it.concept, it.sublabel, yq, fd, nm, g it⟩ : BPRow))) = fun _ => false := by
    funext it
    simp [hne]
  rw [h]
  simp

/-- C3: on a well-shaped budget-balance sheet (five columns, string header
cell), the transform succeeds and emits exactly `3 * R` long rows for the
`R` deduplicated line items; every output row carries the sheet's shared
`year_quarter` and `full_date`, and for each of the three metric names the
rows of that metric are exactly the line items in order, with identifier
columns (`concept`, `sublabel`) copied unchanged and the metric cell turned
into the cleaned `amount`. -/
theorem claim_C3_reshape_completeness (df : List (List PyCell)) (s : String)
    (h4 : 4 ≤ df.length) (hw : ∀ r ∈ df, r.length = 5)
    (hcell : getCell df 3 1 = PyCell.cstr s) :
    ∃ out, transform_balance_presupuestario_data df = some out
    ∧ out.length = 3 * (balance_dedup (balance_filter df)).length
    ∧ (∀ row ∈ out, row.year_quarter = (parse_fecha_header s).2
        ∧ row.full_date = (parse_fecha_header s).1)
    ∧ (out.filter (fun r => r.mtype = "estimated_or_approved")).map
          (fun r => (r.concept, r.sublabel, r.amount))
        = ((balance_dedup (balance_filter df)).map balance_line).map
          (fun it => (it.concept, it.sublabel, clean_amount it.m1))
    ∧ (out.filter (fun r => r.mtype = "devengado")).map
          (fun r => (r.concept, r.sublabel, r.amount))
        = ((balance_dedup (balance_filter df)).map balance_line).map
          (fun it => (it.concept, it.sublabel, clean_amount it.m2))
    ∧ (out.filter (fun r => r.mtype = "recaudado_pagado")).map
          (fun r => (r.concept, r.sublabel, r.amount))
        = ((balance_dedup (balance_filter df)).map balance_line).map
          (fun it => (it.concept, it.sublabel, clean_amount it.m3)) := by
  refine ⟨balance_melt ((balance_dedup (balance_filter df)).map balance_line)
    (parse_fecha_header s).2 (parse_fecha_header s).1, ?_, ?_, ?_, ?_, ?_, ?_⟩
  · unfold transform_balance_presupuestario_data
    rw [if_pos ⟨h4, hw⟩, hcell]
  · unfold balance_melt
    simp only [List.length_append, List.length_map]
    omega
  · intro row hrow
    unfold balance_melt at hrow
    rcases List.mem_append.mp hrow with h1 | h2
    · rcases List.mem_append.mp h1 with h11 | h12
      · obtain ⟨it, hit, rfl⟩ := List.mem_map.mp h11
        exact ⟨rfl, rfl⟩
      · obtain ⟨it, hit, rfl⟩ := List.mem_map.mp h12
        exact ⟨rfl, rfl⟩
    · obtain ⟨it, hit, rfl⟩ := List.mem_map.mp h2
      exact ⟨rfl, rfl⟩
  · unfold balance_melt
    rw [List.filter_append, List.filter_append]
    rw [filter_mkband_eq, filter_mkband_ne _ _ _ _ _ _ (by decide),
      filter_mkband_ne _ _ _ _ _ _ (by decide)]
    simp [List.map_map]
  · unfold balance_melt
    rw [List.filter_append, List.filter_append]
    rw [filter_mkband_ne _ _ _ _ _ _ (by decide), filter_mkband_eq,
      filter_mkband_ne _ _ _ _ _ _ (by decide)]
    simp [List.map_map]
  · unfold balance_melt
    rw [List.filter_append, List.filter_append]
    rw [filter_mkband_ne _ _ _ _ _ _ (by decide),
      filter_mkband_ne _ _ _ _ _ _ (by decide), filter_mkband_eq]
    simp [List.map_map]
/-- Witness for C3 on a concrete sheet with one line item: 3 output rows,
each carrying the parsed period. -/
theorem claim_C3_reshape_completeness_witness :
    ∃ out, transform_balance_presupuestario_data balanceWitnessGrid = some out
      ∧ out.length = 3
      ∧ ∀ row ∈ out, row.year_quarter = "2023_Q1" ∧ row.full_date = some "2023-03-31" := by
  obtain ⟨out, h1, h2, h3, _⟩ := claim_C3_reshape_completeness balanceWitnessGrid
    "al 31 de marzo de 2023" (by decide) (by decide) (by decide)
  refine ⟨out, h1, ?_, ?_⟩
  · rw [h2]
    have hded : (balance_dedup (balance_filter balanceWitnessGrid)).length = 1 := by decide
    rw [hded]
  · intro row hrow
    have := h3 row hrow
    have hpf : parse_fecha_header "al 31 de marzo de 2023"
        = (some "2023-03-31", "2023_Q1") := by decide
    rw [hpf] at this
    exact ⟨this.1, this.2⟩
theorem getD_drop_cell (df : List (List PyCell)) (n k : Nat) :
    (df.drop n).getD k [] = df.getD (n + k) [] := by
  simp [List.getD]

/-- The expenditure output built from explicit section bounds: section I is
rows `8..i-1`, section II is rows `i+1..jend-1`, both restricted to columns
1-7 and processed per section. -/
def egresos_sections_out (df : List (List PyCell)) (i jend : Nat) : List EgRow :=
  (procesar_tabla ((sliceRows df 8 i).map takeCols17)
      (egresos_parse_fecha (pyStr (getCell df 4 1))).1
      (egresos_parse_fecha (pyStr (getCell df 4 1))).2).map
    (fun p => ⟨p.cells, p.codigo, p.fecha, p.cuarto, "I"⟩)
  ++ (procesar_tabla ((sliceRows df (i + 1) jend).map takeCols17)
      (egresos_parse_fecha (pyStr (getCell df 4 1))).1
      (egresos_parse_fecha (pyStr (getCell df 4 1))).2).map
    (fun p => ⟨p.cells, p.codigo, p.fecha, p.cuarto, "II"⟩)

/-- C5: on a well-shaped detailed-expenditure sheet, the transform fails
hard when no row's column 1 matches the `II. Gasto Etiquetado` anchor; when
the anchor first occurs at row `i`, section I is rows `8..i-1` and section
II runs from row `i+1` to the first later row whose column-1 text strips to
empty (exclusive), or to the sheet end when no such row exists. -/
theorem claim_C5_egresos_regions (df : List (List PyCell))
    (h5 : 5 ≤ df.length) (hw : ∀ r ∈ df, 8 ≤ r.length) :
    ((∀ r ∈ df, isAnchorII (pyStr (r.getD 1 PyCell.cnan)) = false) →
      transform_egresos_detallado_data df = none)
    ∧ (∀ i, i < df.length →
      isAnchorII (pyStr ((df.getD i []).getD 1 PyCell.cnan)) = true →
      (∀ j, j < i → isAnchorII (pyStr ((df.getD j []).getD 1 PyCell.cnan)) = false) →
      ((∀ j, i < j → j < df.length →
          ¬ pyStrip (pyStr ((df.getD j []).getD 1 PyCell.cnan)) = "") →
        transform_egresos_detallado_data df = some (egresos_sections_out df i df.length))
      ∧ (∀ j, i < j → j < df.length →
          pyStrip (pyStr ((df.getD j []).getD 1 PyCell.cnan)) = "" →
          (∀ m, i < m → m < j →
            ¬ pyStrip (pyStr ((df.getD m []).getD 1 PyCell.cnan)) = "") →
          transform_egresos_detallado_data df = some (egresos_sections_out df i j))) := by
  constructor
  · intro hno
    have hidx : firstIdx (fun r => isAnchorII (pyStr (r.getD 1 PyCell.cnan))) df = none :=
      (firstIdx_eq_none_iff _ _).mpr hno
    unfold transform_egresos_detallado_data
    rw [if_pos ⟨h5, hw⟩, hidx]
  · intro i hi hanchor hfirst
    have hidx : firstIdx (fun r => isAnchorII (pyStr (r.getD 1 PyCell.cnan))) df = some i :=
      firstIdx_eq_some_of_first _ df [] i hi hanchor (fun j hj => hfirst j hj)
    constructor
    · intro hnoblank
      have hblank : firstIdx
          (fun r => pyStrip (pyStr (r.getD 1 PyCell.cnan)) = "") (df.drop (i + 1)) = none := by
        rw [firstIdx_eq_none_iff]
        intro x hx
        obtain ⟨k, hk, hxeq⟩ := List.mem_iff_getElem.mp hx
        have hk2 : i + 1 + k < df.length := by
          rw [List.length_drop] at hk
          omega
        have hxval : x = df.getD (i + 1 + k) [] := by
          rw [List.getD_eq_getElem _ _ hk2, ← hxeq]
          simp
        rw [hxval]
        exact decide_eq_false (hnoblank (i + 1 + k) (by omega) hk2)
      unfold transform_egresos_detallado_data
      rw [if_pos ⟨h5, hw⟩]
      simp only [hidx, hblank]
      rfl
    · intro j hij hjlen hjb hmin
      have hlen : j - (i + 1) < (df.drop (i + 1)).length := by
        rw [List.length_drop]
        omega
      have hblank : firstIdx
          (fun r => pyStrip (pyStr (r.getD 1 PyCell.cnan)) = "") (df.drop (i + 1))
          = some (j - (i + 1)) := by
        apply firstIdx_eq_some_of_first _ _ [] _ hlen
        · rw [getD_drop_cell]
          have hje : i + 1 + (j - (i + 1)) = j := by omega
          rw [hje]
          exact decide_eq_true hjb
        · intro k hk
          rw [getD_drop_cell]
          exact decide_eq_false (hmin (i + 1 + k) (by omega) (by omega))
      unfold transform_egresos_detallado_data
      rw [if_pos ⟨h5, hw⟩]
      simp only [hidx, hblank]
      have hje : i + 1 + (j - (i + 1)) = j := by omega
      rw [hje]
      rfl
/-- Witness for C5: on the concrete grid the anchor first occurs at row 10
and no later blank row exists, so section II runs to the sheet end. -/
theorem claim_C5_egresos_regions_witness :
    transform_egresos_detallado_data egresosWitnessGrid
      = some (egresos_sections_out egresosWitnessGrid 10 11) := by
  have h := (claim_C5_egresos_regions egresosWitnessGrid (by decide) (by decide)).2 10
    (by decide) (by decide) (by decide)
  have h2 := h.1 (by
    intro j h1 h2
    rw [show egresosWitnessGrid.length = 11 from rfl] at h2
    omega)
  simpa using h2
/-- C8 counterexample: with a fully valid header date ("al 31 de marzo de
2023"), the detailed-expenditure transform attaches `Cuarto = "Q1"` to its
output row — a label with no year prefix, hence not of the form
`"<year>_Q<q>"` for any year and quarter strings. -/
theorem claim_C8_quarter_label_cex :
    transform_egresos_detallado_data egresosWitnessGrid
      = some [⟨[PyCell.cstr "a1) Foo", PyCell.cint 1, PyCell.cint 2, PyCell.cint 3,
          PyCell.cint 4, PyCell.cint 5, PyCell.cint 6],
        some "A1", "2023-03-31", some "Q1", "I"⟩]
    ∧ ∀ y q : String, ¬ ("Q1" = y ++ "_Q" ++ q) := by
  constructor
  · decide
  · intro y q h
    have hd := congrArg String.data h
    simp only [String.data_append] at hd
    have hmem : '_' ∈ y.data ++ "_Q".data ++ q.data := by simp
    rw [← hd] at hmem
    simp at hmem
/-- C8 (amended): with a fully parsed header month, the budget-balance and
detailed-income transforms attach the year-prefixed label
`"<year>_Q<q>"` with `q ∈ 1..4` to every output row, while the
detailed-expenditure transform attaches `"Q<q>"` with no year prefix. -/
theorem claim_C8_quarter_label :
    (∀ (df : List (List PyCell)) (d mn y t : String) (m : Nat) (out : List BPRow),
      (mn, m) ∈ month_map →
      d.data.length = 1 ∨ d.data.length = 2 → (∀ c ∈ d.data, c.isDigit) →
      y.data.length = 4 → (∀ c ∈ y.data, c.isDigit) →
      getCell df 3 1 = PyCell.cstr ("al " ++ d ++ " de " ++ mn ++ " de " ++ y ++ t) →
      transform_balance_presupuestario_data df = some out →
      ∀ row ∈ out,
        row.year_quarter
          = toString (natOfDigits y.data) ++ "_Q" ++ toString ((m - 1) / 3 + 1)
        ∧ 1 ≤ (m - 1) / 3 + 1 ∧ (m - 1) / 3 + 1 ≤ 4)
    ∧ (∀ (df : List (List PyCell)) (d mn y t : String) (m : Nat) (out : List IngRow),
      (mn, m) ∈ month_map →
      d.data.length = 1 ∨ d.data.length = 2 → (∀ c ∈ d.data, c.isDigit) →
      y.data.length = 4 → (∀ c ∈ y.data, c.isDigit) →
      String.intercalate " "
          ((((df.getD 3 []).drop 1).take 7).map (fun c => pyStrip (pyStr c)))
        = "al " ++ d ++ " de " ++ mn ++ " de " ++ y ++ t →
      transform_ingresos_detallado_data df = some out →
      ∀ row ∈ out,
        row.cuarto = toString (natOfDigits y.data) ++ "_Q" ++ toString ((m - 1) / 3 + 1)
        ∧ 1 ≤ (m - 1) / 3 + 1 ∧ (m - 1) / 3 + 1 ≤ 4)
    ∧ (∀ (df : List (List PyCell)) (d mn y t : String) (m : Nat) (out : List EgRow),
      (mn, m) ∈ month_map →
      d.data.length = 1 ∨ d.data.length = 2 → (∀ c ∈ d.data, c.isDigit) →
      y.data.length = 4 → (∀ c ∈ y.data, c.isDigit) →
      getCell df 4 1 = PyCell.cstr ("al " ++ d ++ " de " ++ mn ++ " de " ++ y ++ t) →
      transform_egresos_detallado_data df = some out →
      ∀ row ∈ out,
        row.cuarto = some ("Q" ++ toString ((m - 1) / 3 + 1))
        ∧ 1 ≤ (m - 1) / 3 + 1 ∧ (m - 1) / 3 + 1 ≤ 4) := by
  refine ⟨?_, ?_, ?_⟩
  · intro df d mn y t m out hmn hd hdd hy hyd hcell htr row hrow
    obtain ⟨_, _, _, _, hm1, hm12⟩ := month_map_facts (mn, m) hmn
    have hq : 1 ≤ (m - 1) / 3 + 1 ∧ (m - 1) / 3 + 1 ≤ 4 := by omega
    refine ⟨?_, hq.1, hq.2⟩
    unfold transform_balance_presupuestario_data at htr
    by_cases hguard : 4 ≤ df.length ∧ ∀ r ∈ df, r.length = 5
    · rw [if_pos hguard, hcell] at htr
      simp only [Option.some.injEq] at htr
      subst htr
      have hpf := parse_fecha_header_valid d mn y t m hmn hd hdd hy hyd
      unfold balance_melt at hrow
      rcases List.mem_append.mp hrow with h1 | h2
      · rcases List.mem_append.mp h1 with h11 | h12
        · obtain ⟨it, hit, rfl⟩ := List.mem_map.mp h11
          simp [hpf]
        · obtain ⟨it, hit, rfl⟩ := List.mem_map.mp h12
          simp [hpf]
      · obtain ⟨it, hit, rfl⟩ := List.mem_map.mp h2
        simp [hpf]
    · rw [if_neg hguard] at htr
      simp at htr
  · intro df d mn y t m out hmn hd hdd hy hyd hjoin htr row hrow
    obtain ⟨hlow, hne, hword, hlook, hm1, hm12⟩ := month_map_facts (mn, m) hmn
    have hq : 1 ≤ (m - 1) / 3 + 1 ∧ (m - 1) / 3 + 1 ≤ 4 := by omega
    refine ⟨?_, hq.1, hq.2⟩
    obtain ⟨y1, y2, y3, y4, hydata⟩ : ∃ a b c dd, y.data = [a, b, c, dd] := by
      cases hyl : y.data with
      | nil => rw [hyl] at hy; simp at hy
      | cons a l1 =>
        cases l1 with
        | nil => rw [hyl] at hy; simp at hy
        | cons b l2 =>
          cases l2 with
          | nil => rw [hyl] at hy; simp at hy
          | cons c l3 =>
            cases l3 with
            | nil => rw [hyl] at hy; simp at hy
            | cons dd l4 =>
              cases l4 with
              | nil => exact ⟨a, b, c, dd, rfl⟩
              | cons e l5 => rw [hyl] at hy; simp at hy
    have hdata : (("al " ++ d ++ " de " ++ mn ++ " de " ++ y ++ t)).data
        = 'a' :: 'l' :: ' ' :: (d.data ++ ' ' :: 'd' :: 'e' :: ' '
            :: (mn.data ++ ' ' :: 'd' :: 'e' :: ' '
              :: (y1 :: y2 :: y3 :: y4 :: t.data))) := by
      simp only [String.data_append, hydata]
      simp [List.append_assoc]
    have hsearch := searchFechaAl_header d.data mn.data y1 y2 y3 y4 t.data
      hd hdd (by simpa using hne) hword
      (hyd y1 (by rw [hydata]; simp)) (hyd y2 (by rw [hydata]; simp))
      (hyd y3 (by rw [hydata]; simp)) (hyd y4 (by rw [hydata]; simp))
    have hmk : String.mk mn.data = mn := rfl
    have hfc : extract_fecha_y_cuarto df
        = (toString (natOfDigits y.data) ++ "-" ++ pad2 m ++ "-" ++ pad2 (natOfDigits d.data),
           toString (natOfDigits y.data) ++ "_Q" ++ toString ((m - 1) / 3 + 1)) := by
      unfold extract_fecha_y_cuarto
      rw [hjoin]
      simp only [hdata, hsearch, hlow, hmk, hlook, Option.getD_some]
      rw [quarter_fdiv_ofNat m hm1]
      rw [hydata]
    unfold transform_ingresos_detallado_data at htr
    by_cases hguard : 4 ≤ df.length ∧ ∀ r ∈ df, 8 ≤ r.length
    · rw [if_pos hguard] at htr
      simp only [Option.some.injEq] at htr
      subst htr
      rcases List.mem_append.mp hrow with h1 | h2
      · obtain ⟨r, hr, rfl⟩ := List.mem_map.mp h1
        simp [hfc]
      · obtain ⟨r, hr, rfl⟩ := List.mem_map.mp h2
        simp [hfc]
    · rw [if_neg hguard] at htr
      simp at htr
  · intro df d mn y t m out hmn hd hdd hy hyd hcell htr row hrow
    obtain ⟨hlow, hne, hword, hlook, hm1, hm12⟩ := month_map_facts (mn, m) hmn
    have hq : 1 ≤ (m - 1) / 3 + 1 ∧ (m - 1) / 3 + 1 ≤ 4 := by omega
    refine ⟨?_, hq.1, hq.2⟩
    have hfc : egresos_parse_fecha (pyStr (getCell df 4 1))
        = (toString (natOfDigits y.data) ++ "-" ++ pad2 m ++ "-" ++ pad2 (natOfDigits d.data),
           some ("Q" ++ toString ((m - 1) / 3 + 1))) := by
      rw [hcell]
      exact egresos_parse_fecha_valid d mn y t m hmn hd hdd hy hyd
    unfold transform_egresos_detallado_data at htr
    by_cases hguard : 5 ≤ df.length ∧ ∀ r ∈ df, 8 ≤ r.length
    · rw [if_pos hguard] at htr
      cases hidx : firstIdx (fun r => isAnchorII (pyStr (r.getD 1 PyCell.cnan))) df with
      | none => rw [hidx] at htr; simp at htr
      | some i =>
        rw [hidx] at htr
        simp only [Option.some.injEq] at htr
        subst htr
        rcases List.mem_append.mp hrow with h1 | h2
        · obtain ⟨p, hp, rfl⟩ := List.mem_map.mp h1
          unfold procesar_tabla at hp
          obtain ⟨r, hr, rfl⟩ := List.mem_map.mp hp
          simp only []
          rw [hfc]
        · obtain ⟨p, hp, rfl⟩ := List.mem_map.mp h2
          unfold procesar_tabla at hp
          obtain ⟨r, hr, rfl⟩ := List.mem_map.mp hp
          simp only []
          rw [hfc]
    · rw [if_neg hguard] at htr
      simp at htr
/-- Witness for C8 on the concrete grids: balance and ingresos rows carry
"2023_Q1", egresos rows carry "Q1". -/
theorem claim_C8_quarter_label_witness :
    (∀ row ∈ (transform_balance_presupuestario_data balanceWitnessGrid).getD [],
      row.year_quarter = "2023_Q1")
    ∧ (∀ row ∈ (transform_ingresos_detallado_data ingresosCexGrid).getD [],
      row.cuarto = "2023_Q1")
    ∧ (∀ row ∈ (transform_egresos_detallado_data egresosWitnessGrid).getD [],
      row.cuarto = some "Q1") := by
  refine ⟨?_, ?_, ?_⟩
  · intro row hrow
    have h := claim_C8_quarter_label.1 balanceWitnessGrid "31" "marzo" "2023" "" 3
      ((transform_balance_presupuestario_data balanceWitnessGrid).getD [])
      (by decide) (by decide) (by decide) (by decide) (by decide) (by decide) (by decide)
      row hrow
    rw [h.1]
    decide
  · intro row hrow
    have h := claim_C8_quarter_label.2.1 ingresosCexGrid "31" "marzo" "2023" "      " 3
      ((transform_ingresos_detallado_data ingresosCexGrid).getD [])
      (by decide) (by decide) (by decide) (by decide) (by decide) (by decide) (by decide)
      row hrow
    rw [h.1]
    decide
  · intro row hrow
    have h := claim_C8_quarter_label.2.2 egresosWitnessGrid "31" "marzo" "2023" "" 3
      ((transform_egresos_detallado_data egresosWitnessGrid).getD [])
      (by decide) (by decide) (by decide) (by decide) (by decide) (by decide) (by decide)
      row hrow
    rw [h.1]
    decide
